import Mathlib

/-! # cluster-network-operator: trusted-CA configmap injector and default-MTU probe

A shallow embedding of

* `pkg/controller/configmap_ca_injector/controller.go`
  (`shouldUpdateConfigMaps`, the event predicate built in `add`, and
  `ReconcileConfigMapInjector.Reconcile`), and
* `pkg/network/mtu.go` (`GetDefaultMTU`).

Collaborators that live outside these files (the Kubernetes clients, the
status manager, `apply.ApplyObject`, `validation.TrustBundleConfigMap`,
`netlink`) are taken as parameters.  Every call made to a collaborator is
recorded, in program order, in a list of `Call`s, so that statements such as
"no Apply is submitted" are statements about that list.  Logging
(`log.Printf`, `log.Println`) has no effect on control flow and is left out.
-/

namespace network

end network

namespace names

/-- Modelled from the spec: constant `names.TRUSTED_CA_BUNDLE_CONFIGMAP` of
package `pkg/names`, which is not among the sources; the value is the one the
doc comment of `Reconcile` gives (controller.go:86). -/
def TRUSTED_CA_BUNDLE_CONFIGMAP : String := "trusted-ca-bundle"

/-- Modelled from the spec: constant `names.TRUSTED_CA_BUNDLE_CONFIGMAP_NS` of
package `pkg/names`; value from the doc comment of `Reconcile`
(controller.go:86). -/
def TRUSTED_CA_BUNDLE_CONFIGMAP_NS : String := "openshift-config-managed"

/-- Modelled from the spec: constant `names.TRUSTED_CA_BUNDLE_CONFIGMAP_KEY` of
package `pkg/names`; value from the doc comment of `Reconcile`
(controller.go:87). -/
def TRUSTED_CA_BUNDLE_CONFIGMAP_KEY : String := "ca-bundle.crt"

/-- Modelled from the spec: constant `names.TRUSTED_CA_BUNDLE_CONFIGMAP_LABEL`
of package `pkg/names`; value from the doc comment of `Reconcile`
(controller.go:87). -/
def TRUSTED_CA_BUNDLE_CONFIGMAP_LABEL : String := "config.openshift.io/inject-trusted-cabundle"

end names

namespace configmapcainjector

/-- A Go `map[string]string`, as an association list (first binding wins). -/
abbrev StringMap := List (String × String)

/-- Go two-value map read `v, ok := m[k]`: `none` when `ok` is false. -/
def StringMap.get (m : StringMap) (k : String) : Option String := m.lookup k

/-- Go one-value map read `m[k]`: the zero value `""` for a missing key (also
for a nil map). -/
def StringMap.index (m : StringMap) (k : String) : String := (m.lookup k).getD ""

/-- The fields of `corev1.ConfigMap` that the controller reads or writes:
`ObjectMeta.Namespace`, `ObjectMeta.Name`, `ObjectMeta.Labels` and `Data`. -/
structure ConfigMap where
  Namespace : String
  Name : String
  Labels : StringMap
  Data : StringMap
  deriving DecidableEq

/-- Function `shouldUpdateConfigMaps` (controller.go:196-199); the
`metav1.Object` it receives is the watched configmap. -/
def shouldUpdateConfigMaps (meta : ConfigMap) : Bool :=
  meta.Labels.index names.TRUSTED_CA_BUNDLE_CONFIGMAP_LABEL == "true" ||
    (meta.Name == names.TRUSTED_CA_BUNDLE_CONFIGMAP &&
      meta.Namespace == names.TRUSTED_CA_BUNDLE_CONFIGMAP_NS)

/-- The four notifications of controller-runtime (`event.CreateEvent`,
`UpdateEvent`, `DeleteEvent`, `GenericEvent`) with the objects they carry. -/
inductive Event where
  | Create (Object : ConfigMap)
  | Update (ObjectOld ObjectNew : ConfigMap)
  | Delete (Object : ConfigMap)
  | Generic (Object : ConfigMap)
  deriving DecidableEq

/-- The record `predicate.Funcs`: one function per kind of notification. -/
structure Funcs where
  CreateFunc : ConfigMap → Bool
  DeleteFunc : ConfigMap → Bool
  UpdateFunc : ConfigMap → ConfigMap → Bool
  GenericFunc : ConfigMap → Bool

/-- How the watch consults a `predicate.Funcs`: each notification goes to the
function of its kind. -/
def Funcs.accepts (p : Funcs) : Event → Bool
  | .Create o => p.CreateFunc o
  | .Update old new => p.UpdateFunc old new
  | .Delete o => p.DeleteFunc o
  | .Generic o => p.GenericFunc o

/-- The value `pred` built in `add` (controller.go:54-67). -/
def pred : Funcs where
  UpdateFunc := fun _ ObjectNew => shouldUpdateConfigMaps ObjectNew
  DeleteFunc := fun _ => false
  CreateFunc := fun Object => shouldUpdateConfigMaps Object
  GenericFunc := fun Object => shouldUpdateConfigMaps Object

/-- The `metav1.StatusReason`s the controller distinguishes. -/
inductive StatusReason where
  | NotFound
  | Conflict
  | Other
  deriving DecidableEq

/-- Go `error` values that reach the controller: an API status error with its
reason, the two context errors, and an error made by `fmt.Errorf`. -/
inductive Err where
  | Status (reason : StatusReason) (message : String)
  | Canceled
  | DeadlineExceeded
  | Errorf (message : String)
  deriving DecidableEq

/-- Method `Error()`, used by the `%v` verbs of the degraded messages. -/
def Err.Error : Err → String
  | .Status _ message => message
  | .Canceled => "context canceled"
  | .DeadlineExceeded => "context deadline exceeded"
  | .Errorf message => message

/-- Modelled from the spec: function `errors.IsNotFound` of apimachinery, a
dependency that is not among the sources; it holds exactly for the store's
not-found answer (spec 6, `Get(identity) → resource | NotFoundError`). -/
def IsNotFound : Err → Bool
  | .Status .NotFound _ => true
  | _ => false

/-- Modelled from the spec: function `errors.IsConflict` of apimachinery, a
dependency that is not among the sources; it holds exactly for the store's
optimistic-concurrency conflict (spec 6, `ConflictError`). -/
def IsConflict : Err → Bool
  | .Status .Conflict _ => true
  | _ => false

/-- Modelled from the spec: the component id `statusmanager.InjectorConfig`
(a `StatusLevel` of package `pkg/controller/statusmanager`, which is not among
the sources), kept by name. -/
def InjectorConfig : String := "InjectorConfig"

/-- One call made by `Reconcile` to a collaborator, with its arguments. -/
inductive Call where
  /-- Call `r.client.Kubernetes().CoreV1().ConfigMaps(ns).Get(ctx, name, ...)`. -/
  | CoreGet (ns name : String)
  /-- Call `r.client.CRClient().List(ctx, list, MatchingLabels{label: value})`. -/
  | List (label value : String)
  /-- Call `r.client.CRClient().Get(ctx, NamespacedName{ns, name}, obj)`. -/
  | Get (ns name : String)
  /-- Call `apply.ApplyObject(ctx, r.client, obj, subcontroller)`. -/
  | Apply (obj : ConfigMap) (fieldManager : String)
  /-- Call `r.status.SetDegraded(level, reason, message)`. -/
  | SetDegraded (level reason message : String)
  /-- Call `r.status.SetNotDegraded(level)`. -/
  | SetNotDegraded (level : String)
  deriving DecidableEq

/-- The answers of the collaborators.  The two reads of the prologue happen at
a fixed point of the pass; `applyObject` may be called many times, so its
answer may depend on all the calls made before it in the pass. -/
structure World where
  coreGet : String → String → Except Err ConfigMap
  /-- Function `validation.TrustBundleConfigMap`: the bundle bytes, or the error. -/
  validate : ConfigMap → Except Err String
  list : String → String → Except Err (List ConfigMap)
  get : String → String → Except Err ConfigMap
  applyObject : List Call → ConfigMap → String → Option Err

/-- The fields of `reconcile.Request` (a `types.NamespacedName`). -/
structure Request where
  Namespace : String
  Name : String
  deriving DecidableEq

/-- The record `reconcile.Result`. -/
structure Result where
  Requeue : Bool := false
  RequeueAfter : Nat := 0
  deriving DecidableEq

/-- What a pass of `Reconcile` does and returns: the calls it made, in order,
and the returned pair `(reconcile.Result, error)` (`none` is a nil error). -/
structure Pass where
  calls : List Call
  result : Result
  err : Option Err
  deriving DecidableEq

/-- Modelled from the spec: the number of attempts of `retry.DefaultBackoff`
of client-go, a dependency that is not among the sources.  The library sets
`Steps: 4`; the spec speaks of a bounded number of attempts (4.4, step 3).
The durations play no part here, and nothing below depends on the number
beyond its being positive. -/
def DefaultBackoffSteps : Nat := 4

/-- Modelled from the spec: function `retry.RetryOnConflict` of client-go, a
dependency that is not among the sources (spec 4.4, steps 3 and 4).  It is
`retry.OnError` with `errors.IsConflict` over `wait.ExponentialBackoff`: `fn`
runs at most `steps` times, again only after a conflict; a nil or non-conflict
answer is returned at once, and when the steps run out the last conflict is
returned.  `fn` gets the calls made so far and gives back the calls made
after it. -/
def RetryOnConflict : Nat → (List Call → List Call × Option Err) → List Call → Option Err →
    List Call × Option Err
  | 0, _, tr, lastErr => (tr, lastErr)
  | steps + 1, fn, tr, _ =>
    match fn tr with
    | (tr2, none) => (tr2, none)
    | (tr2, some err) =>
      if IsConflict err then RetryOnConflict steps fn tr2 (some err) else (tr2, some err)

/-- The sparse object `configMapToUpdate` (controller.go:161-169). -/
def configMapToUpdate (configMap : ConfigMap) (trustedCAbundleData : String) : ConfigMap where
  Namespace := configMap.Namespace
  Name := configMap.Name
  Labels := []
  Data := [(names.TRUSTED_CA_BUNDLE_CONFIGMAP_KEY, trustedCAbundleData)]

/-- The closure handed to `retry.RetryOnConflict` (controller.go:153-177). -/
def updateFn (w : World) (trustedCAbundleData : String) (configMap : ConfigMap)
    (tr : List Call) : List Call × Option Err :=
  if configMap.Data.get names.TRUSTED_CA_BUNDLE_CONFIGMAP_KEY = some trustedCAbundleData then
    (tr, none)
  else
    (tr ++ [Call.Apply (configMapToUpdate configMap trustedCAbundleData) "configmap_ca"],
      w.applyObject tr (configMapToUpdate configMap trustedCAbundleData) "configmap_ca")

/-- State of the loop over `configMapsToChange`: the calls so far, the slice
`errs`, and `ret`, which is `some e` once the loop body has executed its
`return reconcile.Result{}, e` (controller.go:183). -/
structure LoopOut where
  calls : List Call
  errs : List Err
  ret : Option Err
  deriving DecidableEq

/-- The loop `for _, configMap := range configMapsToChange` of `Reconcile`
(controller.go:152-186). -/
def applyLoop (w : World) (trustedCAbundleData : String) :
    List ConfigMap → List Call → List Err → LoopOut
  | [], tr, errs => ⟨tr, errs, none⟩
  | configMap :: rest, tr, errs =>
    match RetryOnConflict DefaultBackoffSteps (updateFn w trustedCAbundleData configMap) tr none with
    | (tr2, none) => applyLoop w trustedCAbundleData rest tr2 errs
    | (tr2, some err) =>
      if (errs ++ [err]).length > 5 then
        ⟨tr2 ++ [Call.SetDegraded InjectorConfig "ConfigMapUpdateFailure"
            "Too many errors seen when updating trusted CA configmaps"],
          errs ++ [err],
          some (Err.Errorf "Too many errors attempting to update configmaps with CA cert. data")⟩
      else applyLoop w trustedCAbundleData rest tr2 (errs ++ [err])

/-- The end of `Reconcile`, from `errs := []error{}` on (controller.go:150-194):
the loop, then the report. -/
def applyAndReport (w : World) (trustedCAbundleData : String)
    (configMapsToChange : List ConfigMap) (tr : List Call) : Pass :=
  let out := applyLoop w trustedCAbundleData configMapsToChange tr []
  match out.ret with
  | some err => ⟨out.calls, {}, some err⟩
  | none =>
    if out.errs.length > 0 then
      ⟨out.calls ++ [Call.SetDegraded InjectorConfig "ConfigmapUpdateFailure"
          "some configmaps didn\x27t fully update with CA cert. data"],
        {}, some (Err.Errorf "some configmaps didn\x27t fully update with CA cert. data")⟩
    else
      ⟨out.calls ++ [Call.SetNotDegraded InjectorConfig], {}, none⟩

/-- Method `ReconcileConfigMapInjector.Reconcile` (controller.go:90-194). -/
def Reconcile (w : World) (request : Request) : Pass :=
  let tr0 := [Call.CoreGet names.TRUSTED_CA_BUNDLE_CONFIGMAP_NS names.TRUSTED_CA_BUNDLE_CONFIGMAP]
  match w.coreGet names.TRUSTED_CA_BUNDLE_CONFIGMAP_NS names.TRUSTED_CA_BUNDLE_CONFIGMAP with
  | .error err =>
    if IsNotFound err then ⟨tr0, {}, none⟩ else ⟨tr0, {}, some err⟩
  | .ok trustedCAbundleConfigMap =>
    match w.validate trustedCAbundleConfigMap with
    | .error err =>
      ⟨tr0 ++ [Call.SetDegraded InjectorConfig "InvalidInjectorConfig"
          ("Failed to validate trusted CA certificates in " ++ trustedCAbundleConfigMap.Name)],
        {}, some err⟩
    | .ok trustedCAbundleData =>
      if request.Name = names.TRUSTED_CA_BUNDLE_CONFIGMAP ∧
          request.Namespace = names.TRUSTED_CA_BUNDLE_CONFIGMAP_NS then
        let tr1 := tr0 ++ [Call.List names.TRUSTED_CA_BUNDLE_CONFIGMAP_LABEL "true"]
        match w.list names.TRUSTED_CA_BUNDLE_CONFIGMAP_LABEL "true" with
        | .error err =>
          ⟨tr1 ++ [Call.SetDegraded InjectorConfig "ListConfigMapError"
              ("Error getting the list of affected configmaps: " ++ err.Error)],
            {}, some err⟩
        | .ok items => applyAndReport w trustedCAbundleData items tr1
      else
        let tr1 := tr0 ++ [Call.Get request.Namespace request.Name]
        match w.get request.Namespace request.Name with
        | .error err =>
          if IsNotFound err then ⟨tr1, {}, none⟩
          else
            ⟨tr1 ++ [Call.SetDegraded InjectorConfig "ClusterConfigError"
                ("failed to get configmap \x27" ++ request.Namespace ++ "/" ++ request.Name ++
                  "\x27: " ++ err.Error)],
              {}, some err⟩
        | .ok requestedCAbundleConfigMap =>
          applyAndReport w trustedCAbundleData [requestedCAbundleConfigMap] tr1

end configmapcainjector

/-! ## Concrete inputs used to exercise the statements below -/

namespace network

end network

namespace configmapcainjector

/-- The request that names the canonical bundle. -/
def canonicalRequest : Request :=
  ⟨names.TRUSTED_CA_BUNDLE_CONFIGMAP_NS, names.TRUSTED_CA_BUNDLE_CONFIGMAP⟩

/-- A configmap of namespace `ns` that carries the injection label. -/
def labeled (name : String) (data : StringMap) : ConfigMap :=
  ⟨"ns", name, [(names.TRUSTED_CA_BUNDLE_CONFIGMAP_LABEL, "true")], data⟩

/-- The canonical bundle, holding `X` under the designated key. -/
def bundleX : ConfigMap :=
  ⟨names.TRUSTED_CA_BUNDLE_CONFIGMAP_NS, names.TRUSTED_CA_BUNDLE_CONFIGMAP, [],
    [(names.TRUSTED_CA_BUNDLE_CONFIGMAP_KEY, "X")]⟩

/-- A stand-in for `validation.TrustBundleConfigMap`: the bytes under the
designated key are the bundle, except that the content `not a certificate` and
a missing key are rejected. -/
def validateKey (cm : ConfigMap) : Except Err String :=
  match cm.Data.get names.TRUSTED_CA_BUNDLE_CONFIGMAP_KEY with
  | some d => if d = "not a certificate" then .error (.Errorf "failed parsing certificate") else .ok d
  | none => .error (.Errorf "ConfigMap does not contain ca-bundle.crt")

/-- A store error that is neither not-found nor a conflict. -/
def storeError : Err := .Status .Other "the server is currently unable to handle the request"

/-- A not-found status error. -/
def notFound : Err := .Status .NotFound "not found"

/-- A store in which the bundle holds `X`, `targets` carry the label, no other
configmap exists, and every Apply gets the answer `answer`. -/
def worldWith (targets : List ConfigMap) (answer : Option Err) : World where
  coreGet := fun _ _ => .ok bundleX
  validate := validateKey
  list := fun _ _ => .ok targets
  get := fun _ _ => .error notFound
  applyObject := fun _ _ _ => answer

/-- Three labeled targets holding `X`, `Y` and no key; every Apply succeeds. -/
def worldXY : World :=
  worldWith
    [labeled "holdsX" [(names.TRUSTED_CA_BUNDLE_CONFIGMAP_KEY, "X")],
      labeled "holdsY" [(names.TRUSTED_CA_BUNDLE_CONFIGMAP_KEY, "Y")],
      labeled "keyless" []]
    none

/-- The canonical bundle exists but its content does not validate. -/
def worldInvalid : World where
  coreGet := fun _ _ =>
    .ok ⟨names.TRUSTED_CA_BUNDLE_CONFIGMAP_NS, names.TRUSTED_CA_BUNDLE_CONFIGMAP, [],
      [(names.TRUSTED_CA_BUNDLE_CONFIGMAP_KEY, "not a certificate")]⟩
  validate := validateKey
  list := fun _ _ => .ok [labeled "t1" []]
  get := fun _ _ => .error notFound
  applyObject := fun _ _ _ => none

/-- The canonical bundle does not exist. -/
def worldNoBundle : World where
  coreGet := fun _ _ => .error notFound
  validate := validateKey
  list := fun _ _ => .ok [labeled "t1" []]
  get := fun _ _ => .ok (labeled "t1" [])
  applyObject := fun _ _ _ => none

/-- A request that names a configmap other than the canonical bundle. -/
def otherRequest : Request := ⟨"ns", "app-config"⟩

/-- The configmap `ns/app-config` exists, holds other data and carries no
label (the label was removed, or never set); every Apply succeeds. -/
def worldUnlabeled : World where
  coreGet := fun _ _ => .ok bundleX
  validate := validateKey
  list := fun _ _ => .ok []
  get := fun ns name => .ok ⟨ns, name, [], [("unrelated", "value")]⟩
  applyObject := fun _ _ _ => none

/-- The configmap `ns/app-config` exists, carries the label and lacks the key;
its Apply is answered with `answer`. -/
def worldSingle (answer : Option Err) : World where
  coreGet := fun _ _ => .ok bundleX
  validate := validateKey
  list := fun _ _ => .ok []
  get := fun _ name => .ok (labeled name [])
  applyObject := fun _ _ _ => answer

/-- An optimistic-concurrency conflict. -/
def conflictErr : Err := .Status .Conflict "the object has been modified"

/-- The configmap `ns/app-config` exists, carries the label and lacks the key;
its first Apply is answered with a conflict and every later one with
`answer`. -/
def worldConflictThen (answer : Option Err) : World where
  coreGet := fun _ _ => .ok bundleX
  validate := validateKey
  list := fun _ _ => .ok []
  get := fun _ name => .ok (labeled name [])
  applyObject := fun tr _ _ => if tr.length ≤ 2 then some conflictErr else answer

end configmapcainjector

/-! ## Predicates and values used in the statements -/

namespace configmapcainjector

/-- The request names the canonical bundle: the test of controller.go:114. -/
def Request.isCanonical (request : Request) : Prop :=
  request.Name = names.TRUSTED_CA_BUNDLE_CONFIGMAP ∧
    request.Namespace = names.TRUSTED_CA_BUNDLE_CONFIGMAP_NS

/-- The pass of `Reconcile` for `request` reaches the apply loop
(controller.go:150) with bundle bytes `data`, target list `targets` and calls
so far `tr`: the canonical bundle was found and validated, and either the
request names the canonical bundle and List answered `targets`, or it names
another configmap and Get answered the one configmap of `targets`. -/
def ReachesLoop (w : World) (request : Request) (data : String) (targets : List ConfigMap)
    (tr : List Call) : Prop :=
  ∃ bundle,
    w.coreGet names.TRUSTED_CA_BUNDLE_CONFIGMAP_NS names.TRUSTED_CA_BUNDLE_CONFIGMAP = .ok bundle ∧
    w.validate bundle = .ok data ∧
    ((request.isCanonical ∧
        w.list names.TRUSTED_CA_BUNDLE_CONFIGMAP_LABEL "true" = .ok targets ∧
        tr = [Call.CoreGet names.TRUSTED_CA_BUNDLE_CONFIGMAP_NS names.TRUSTED_CA_BUNDLE_CONFIGMAP,
              Call.List names.TRUSTED_CA_BUNDLE_CONFIGMAP_LABEL "true"]) ∨
      (¬ request.isCanonical ∧
        (∃ cm, w.get request.Namespace request.Name = .ok cm ∧ targets = [cm]) ∧
        tr = [Call.CoreGet names.TRUSTED_CA_BUNDLE_CONFIGMAP_NS names.TRUSTED_CA_BUNDLE_CONFIGMAP,
              Call.Get request.Namespace request.Name]))

/-- The target already holds the bundle bytes under the designated key: the
test of controller.go:154. -/
def upToDate (data : String) (configMap : ConfigMap) : Prop :=
  configMap.Data.get names.TRUSTED_CA_BUNDLE_CONFIGMAP_KEY = some data

/-- The object carries the injection label with the value `true`. -/
def hasLabel (configMap : ConfigMap) : Prop :=
  configMap.Labels.get names.TRUSTED_CA_BUNDLE_CONFIGMAP_LABEL = some "true"

/-- The object has the identity of the canonical bundle. -/
def isBundle (configMap : ConfigMap) : Prop :=
  configMap.Name = names.TRUSTED_CA_BUNDLE_CONFIGMAP ∧
    configMap.Namespace = names.TRUSTED_CA_BUNDLE_CONFIGMAP_NS

/-- The one Apply call the loop can make for a target: the sparse object under
the field manager `configmap_ca` (controller.go:171). -/
def applyCall (data : String) (configMap : ConfigMap) : Call :=
  Call.Apply (configMapToUpdate configMap data) "configmap_ca"

/-- One iteration's call of `retry.RetryOnConflict(retry.DefaultBackoff, ...)`
for the target `configMap` (controller.go:153), begun after the calls `tr`:
the calls after it and the error it returns. -/
def attempt (w : World) (data : String) (configMap : ConfigMap) (tr : List Call) :
    List Call × Option Err :=
  RetryOnConflict DefaultBackoffSteps (updateFn w data configMap) tr none

/-- The answer of the store to the Apply call number `i` (counted from 0) of
the update of the target `configMap`, when that update begins after the calls
`tr`: the calls made before it are `tr` and the `i` earlier Apply calls of the
same update. -/
def applyAnswer (w : World) (data : String) (configMap : ConfigMap) (tr : List Call) (i : Nat) :
    Option Err :=
  w.applyObject (tr ++ List.replicate i (applyCall data configMap))
    (configMapToUpdate configMap data) "configmap_ca"

/-- The update of the target `configMap`, begun after the calls `tr`, fails,
read off the answers of the store: the target does not hold the bundle bytes,
and after `k` Apply calls answered with a conflict the next Apply call is
answered with an error that is not a conflict, or with a conflict when it is
the last attempt the backoff allows. -/
def applyFails (w : World) (data : String) (configMap : ConfigMap) (tr : List Call) : Prop :=
  ¬ upToDate data configMap ∧
  ∃ k e, k < DefaultBackoffSteps ∧
    (∀ i, i < k → ∃ c, applyAnswer w data configMap tr i = some c ∧ IsConflict c = true) ∧
    applyAnswer w data configMap tr k = some e ∧
    (IsConflict e = false ∨ k + 1 = DefaultBackoffSteps)

/-- Some target update of the pass fails: a target of the list is reached by
the loop (the loop has not returned before it) and the store answers its
update with a failure in the sense of `applyFails`. -/
def updateFails (w : World) (data : String) (targets : List ConfigMap) (tr : List Call) : Prop :=
  ∃ pre cm suf, targets = pre ++ cm :: suf ∧
    (applyLoop w data pre tr []).ret = none ∧
    applyFails w data cm (applyLoop w data pre tr []).calls

/-- The `SetDegraded` call of the abort branch (controller.go:181-182). -/
def tooManyCall : Call :=
  Call.SetDegraded InjectorConfig "ConfigMapUpdateFailure"
    "Too many errors seen when updating trusted CA configmaps"

/-- The error returned by the abort branch (controller.go:183). -/
def tooManyErr : Err :=
  Err.Errorf "Too many errors attempting to update configmaps with CA cert. data"

/-- The `SetDegraded` call after a loop that ran to its end with failures
(controller.go:188-189). -/
def someFailedCall : Call :=
  Call.SetDegraded InjectorConfig "ConfigmapUpdateFailure"
    "some configmaps didn\x27t fully update with CA cert. data"

/-- The error returned after a loop that ran to its end with failures
(controller.go:190). -/
def someFailedErr : Err :=
  Err.Errorf "some configmaps didn\x27t fully update with CA cert. data"

instance (data : String) (configMap : ConfigMap) : Decidable (upToDate data configMap) := by
  unfold upToDate; infer_instance

instance (configMap : ConfigMap) : Decidable (hasLabel configMap) := by
  unfold hasLabel; infer_instance

instance (configMap : ConfigMap) : Decidable (isBundle configMap) := by
  unfold isBundle; infer_instance

instance (request : Request) : Decidable request.isCanonical := by
  unfold Request.isCanonical; infer_instance

end configmapcainjector

/-! ## Theorems: `GetDefaultMTU` -/

namespace network

end network

/-! ## Theorems: the event filter -/

namespace configmapcainjector

theorem StringMap.index_eq_true_iff (m : StringMap) (k : String) :
    m.index k = "true" ↔ m.get k = some "true" := by
  unfold StringMap.index StringMap.get
  cases h : List.lookup k m with
  | none => simp
  | some v => simp

theorem shouldUpdateConfigMaps_iff (meta : ConfigMap) :
    shouldUpdateConfigMaps meta = true ↔ hasLabel meta ∨ isBundle meta := by
  unfold shouldUpdateConfigMaps hasLabel isBundle
  simp [StringMap.index_eq_true_iff]

/-- C6. The event filter accepts a create, an update (judged on the new
object) or a generic notification if and only if the object carries the label
`config.openshift.io/inject-trusted-cabundle` with the value `true`, or its
name and namespace are both those of the canonical bundle; it rejects every
delete notification, whatever the labels and identity of the object. -/
theorem pred_accepts_iff :
    (∀ o, pred.accepts (.Create o) = true ↔
      o.Labels.get names.TRUSTED_CA_BUNDLE_CONFIGMAP_LABEL = some "true" ∨
        (o.Name = names.TRUSTED_CA_BUNDLE_CONFIGMAP ∧
          o.Namespace = names.TRUSTED_CA_BUNDLE_CONFIGMAP_NS)) ∧
    (∀ old new, pred.accepts (.Update old new) = true ↔
      new.Labels.get names.TRUSTED_CA_BUNDLE_CONFIGMAP_LABEL = some "true" ∨
        (new.Name = names.TRUSTED_CA_BUNDLE_CONFIGMAP ∧
          new.Namespace = names.TRUSTED_CA_BUNDLE_CONFIGMAP_NS)) ∧
    (∀ o, pred.accepts (.Generic o) = true ↔
      o.Labels.get names.TRUSTED_CA_BUNDLE_CONFIGMAP_LABEL = some "true" ∨
        (o.Name = names.TRUSTED_CA_BUNDLE_CONFIGMAP ∧
          o.Namespace = names.TRUSTED_CA_BUNDLE_CONFIGMAP_NS)) ∧
    (∀ o, pred.accepts (.Delete o) = false) := by
  refine ⟨?_, ?_, ?_, ?_⟩
  · intro o; exact shouldUpdateConfigMaps_iff o
  · intro _ new; exact shouldUpdateConfigMaps_iff new
  · intro o; exact shouldUpdateConfigMaps_iff o
  · intro o; rfl

end configmapcainjector

/-! ## Lemmas: the retry wrapper and the apply loop -/

namespace configmapcainjector

theorem updateFn_upToDate (w : World) (data : String) (cm : ConfigMap) (tr : List Call)
    (h : upToDate data cm) : updateFn w data cm tr = (tr, none) := by
  unfold upToDate at h
  simp [updateFn, h]

theorem updateFn_stale (w : World) (data : String) (cm : ConfigMap) (tr : List Call)
    (h : ¬ upToDate data cm) :
    updateFn w data cm tr =
      (tr ++ [applyCall data cm], w.applyObject tr (configMapToUpdate cm data) "configmap_ca") := by
  unfold upToDate at h
  simp [updateFn, h, applyCall]

/-- For an up-to-date target the wrapped closure returns nil at its first run
and makes no call. -/
theorem retry_upToDate (w : World) (data : String) (cm : ConfigMap) (n : Nat) (tr : List Call)
    (last : Option Err) (h : upToDate data cm) :
    RetryOnConflict (n + 1) (updateFn w data cm) tr last = (tr, none) := by
  simp [RetryOnConflict, updateFn_upToDate w data cm tr h]

/-- For a stale target the wrapped closure starts with an Apply call. -/
theorem retry_stale_first (w : World) (data : String) (cm : ConfigMap) (n : Nat) (tr : List Call)
    (last : Option Err) (h : ¬ upToDate data cm) :
    ∃ more, (RetryOnConflict (n + 1) (updateFn w data cm) tr last).1 =
      tr ++ applyCall data cm :: more := by
  induction n generalizing tr last with
  | zero =>
    refine ⟨[], ?_⟩
    simp only [RetryOnConflict, updateFn_stale w data cm tr h]
    cases w.applyObject tr (configMapToUpdate cm data) "configmap_ca" with
    | none => rfl
    | some e => by_cases hc : IsConflict e = true <;> simp [hc, RetryOnConflict]
  | succ n ih =>
    rw [RetryOnConflict, updateFn_stale w data cm tr h]
    cases w.applyObject tr (configMapToUpdate cm data) "configmap_ca" with
    | none => exact ⟨[], rfl⟩
    | some e =>
      by_cases hc : IsConflict e = true
      · simp only [hc, if_true]
        obtain ⟨more, hm⟩ := ih (tr ++ [applyCall data cm]) (some e)
        exact ⟨applyCall data cm :: more, by rw [hm]; simp⟩
      · simp only [hc]
        exact ⟨[], rfl⟩

/-- The wrapped closure only ever adds Apply calls for its own target, at most
one per step, and none at all unless the target is stale. -/
theorem retry_calls (w : World) (data : String) (cm : ConfigMap) (n : Nat) (tr : List Call)
    (last : Option Err) :
    ∃ k, k ≤ n ∧ (k ≠ 0 → ¬ upToDate data cm) ∧
      (RetryOnConflict n (updateFn w data cm) tr last).1 =
        tr ++ List.replicate k (applyCall data cm) := by
  induction n generalizing tr last with
  | zero => exact ⟨0, le_refl _, by simp, by simp [RetryOnConflict]⟩
  | succ n ih =>
    by_cases h : upToDate data cm
    · exact ⟨0, Nat.zero_le _, by simp, by simp [retry_upToDate w data cm n tr last h]⟩
    · rw [RetryOnConflict, updateFn_stale w data cm tr h]
      cases w.applyObject tr (configMapToUpdate cm data) "configmap_ca" with
      | none => exact ⟨1, by omega, fun _ => h, by simp⟩
      | some e =>
        by_cases hc : IsConflict e = true
        · simp only [hc, if_true]
          obtain ⟨k, hk, _, hm⟩ := ih (tr ++ [applyCall data cm]) (some e)
          refine ⟨k + 1, by omega, fun _ => h, ?_⟩
          rw [hm, List.replicate_succ]
          simp
        · simp only [hc]
          exact ⟨1, by omega, fun _ => h, by simp⟩

/-- A non-conflict answer of Apply is returned at once: one Apply call, no
second attempt. -/
theorem retry_no_conflict (w : World) (data : String) (cm : ConfigMap) (n : Nat) (tr : List Call)
    (last : Option Err) (e : Err) (h : ¬ upToDate data cm)
    (ha : w.applyObject tr (configMapToUpdate cm data) "configmap_ca" = some e)
    (hc : IsConflict e = false) :
    RetryOnConflict (n + 1) (updateFn w data cm) tr last = (tr ++ [applyCall data cm], some e) := by
  simp [RetryOnConflict, updateFn_stale w data cm tr h, ha, hc]

end configmapcainjector

namespace configmapcainjector

theorem applyLoop_nil (w : World) (data : String) (tr : List Call) (errs : List Err) :
    applyLoop w data [] tr errs = ⟨tr, errs, none⟩ := rfl

theorem applyLoop_cons_ok (w : World) (data : String) (cm : ConfigMap) (rest : List ConfigMap)
    (tr : List Call) (errs : List Err) (h : (attempt w data cm tr).2 = none) :
    applyLoop w data (cm :: rest) tr errs = applyLoop w data rest (attempt w data cm tr).1 errs := by
  unfold attempt at h ⊢
  rw [applyLoop]
  cases hr : RetryOnConflict DefaultBackoffSteps (updateFn w data cm) tr none with
  | mk tr2 r =>
    rw [hr] at h
    simp only at h
    subst h
    rfl

theorem applyLoop_cons_abort (w : World) (data : String) (cm : ConfigMap) (rest : List ConfigMap)
    (tr : List Call) (errs : List Err) (e : Err) (h : (attempt w data cm tr).2 = some e)
    (hlen : (errs ++ [e]).length > 5) :
    applyLoop w data (cm :: rest) tr errs =
      ⟨(attempt w data cm tr).1 ++ [tooManyCall], errs ++ [e], some tooManyErr⟩ := by
  unfold attempt at h ⊢
  rw [applyLoop]
  cases hr : RetryOnConflict DefaultBackoffSteps (updateFn w data cm) tr none with
  | mk tr2 r =>
    rw [hr] at h
    simp only at h
    subst h
    simp only [if_pos hlen]
    rfl

theorem applyLoop_cons_continue (w : World) (data : String) (cm : ConfigMap)
    (rest : List ConfigMap) (tr : List Call) (errs : List Err) (e : Err)
    (h : (attempt w data cm tr).2 = some e) (hlen : ¬ (errs ++ [e]).length > 5) :
    applyLoop w data (cm :: rest) tr errs =
      applyLoop w data rest (attempt w data cm tr).1 (errs ++ [e]) := by
  unfold attempt at h ⊢
  rw [applyLoop]
  cases hr : RetryOnConflict DefaultBackoffSteps (updateFn w data cm) tr none with
  | mk tr2 r =>
    rw [hr] at h
    simp only at h
    subst h
    simp only [if_neg hlen]

/-- The loop over `pre ++ rest` is the loop over `pre` followed, unless that
one has returned, by the loop over `rest`. -/
theorem applyLoop_append (w : World) (data : String) (pre rest : List ConfigMap) :
    ∀ (tr : List Call) (errs : List Err),
      applyLoop w data (pre ++ rest) tr errs =
        if (applyLoop w data pre tr errs).ret = none then
          applyLoop w data rest (applyLoop w data pre tr errs).calls
            (applyLoop w data pre tr errs).errs
        else applyLoop w data pre tr errs := by
  induction pre with
  | nil => intro tr errs; simp [applyLoop_nil]
  | cons cm pre ih =>
    intro tr errs
    rw [List.cons_append]
    cases ha : (attempt w data cm tr).2 with
    | none =>
      rw [applyLoop_cons_ok w data cm _ tr errs ha, applyLoop_cons_ok w data cm _ tr errs ha]
      exact ih _ _
    | some e =>
      by_cases hlen : (errs ++ [e]).length > 5
      · rw [applyLoop_cons_abort w data cm _ tr errs e ha hlen,
          applyLoop_cons_abort w data cm _ tr errs e ha hlen]
        simp
      · rw [applyLoop_cons_continue w data cm _ tr errs e ha hlen,
          applyLoop_cons_continue w data cm _ tr errs e ha hlen]
        exact ih _ _

/-- The loop keeps the calls made before it and adds only Apply calls for
stale targets of its list and, last, the `SetDegraded` of the abort branch. -/
theorem applyLoop_calls (w : World) (data : String) (targets : List ConfigMap) :
    ∀ (tr : List Call) (errs : List Err),
      ∃ extra, (applyLoop w data targets tr errs).calls = tr ++ extra ∧
        ∀ c ∈ extra, (∃ t ∈ targets, ¬ upToDate data t ∧ c = applyCall data t) ∨
          c = tooManyCall := by
  induction targets with
  | nil => intro tr errs; exact ⟨[], by simp [applyLoop_nil], by simp⟩
  | cons cm rest ih =>
    intro tr errs
    obtain ⟨k, _, hk, hcalls⟩ := retry_calls w data cm DefaultBackoffSteps tr none
    have hmine : ∀ c ∈ List.replicate k (applyCall data cm),
        (∃ t ∈ cm :: rest, ¬ upToDate data t ∧ c = applyCall data t) ∨ c = tooManyCall := by
      intro c hc
      obtain ⟨hk0, rfl⟩ := List.mem_replicate.mp hc
      exact Or.inl ⟨cm, List.mem_cons_self _ _, hk hk0, rfl⟩
    have hrest : ∀ extra : List Call,
        (∀ c ∈ extra, (∃ t ∈ rest, ¬ upToDate data t ∧ c = applyCall data t) ∨ c = tooManyCall) →
        ∀ c ∈ List.replicate k (applyCall data cm) ++ extra,
          (∃ t ∈ cm :: rest, ¬ upToDate data t ∧ c = applyCall data t) ∨ c = tooManyCall := by
      intro extra hex c hc
      rcases List.mem_append.mp hc with h1 | h2
      · exact hmine c h1
      · rcases hex c h2 with ⟨t, ht, hst, rfl⟩ | rfl
        · exact Or.inl ⟨t, List.mem_cons_of_mem _ ht, hst, rfl⟩
        · exact Or.inr rfl
    have hcalls2 : (attempt w data cm tr).1 = tr ++ List.replicate k (applyCall data cm) := hcalls
    cases ha : (attempt w data cm tr).2 with
    | none =>
      rw [applyLoop_cons_ok w data cm _ tr errs ha, hcalls2]
      obtain ⟨extra, he, hall⟩ := ih (tr ++ List.replicate k (applyCall data cm)) errs
      exact ⟨List.replicate k (applyCall data cm) ++ extra, by rw [he]; simp, hrest extra hall⟩
    | some e =>
      by_cases hlen : (errs ++ [e]).length > 5
      · rw [applyLoop_cons_abort w data cm _ tr errs e ha hlen, hcalls2]
        refine ⟨List.replicate k (applyCall data cm) ++ [tooManyCall], by simp, ?_⟩
        exact hrest [tooManyCall] (by simp)
      · rw [applyLoop_cons_continue w data cm _ tr errs e ha hlen, hcalls2]
        obtain ⟨extra, he, hall⟩ := ih (tr ++ List.replicate k (applyCall data cm)) (errs ++ [e])
        exact ⟨List.replicate k (applyCall data cm) ++ extra, by rw [he]; simp, hrest extra hall⟩

/-- The slice `errs` only grows. -/
theorem applyLoop_errs (w : World) (data : String) (targets : List ConfigMap) :
    ∀ (tr : List Call) (errs : List Err),
      ∃ more, (applyLoop w data targets tr errs).errs = errs ++ more := by
  induction targets with
  | nil => intro tr errs; exact ⟨[], by simp [applyLoop_nil]⟩
  | cons cm rest ih =>
    intro tr errs
    cases ha : (attempt w data cm tr).2 with
    | none =>
      rw [applyLoop_cons_ok w data cm _ tr errs ha]
      exact ih _ _
    | some e =>
      by_cases hlen : (errs ++ [e]).length > 5
      · rw [applyLoop_cons_abort w data cm _ tr errs e ha hlen]
        exact ⟨[e], rfl⟩
      · rw [applyLoop_cons_continue w data cm _ tr errs e ha hlen]
        obtain ⟨more, hm⟩ := ih (attempt w data cm tr).1 (errs ++ [e])
        exact ⟨e :: more, by rw [hm]; simp⟩

/-- The loop returns from `Reconcile` exactly when `errs` has grown past five
entries; it then holds six, the last call is the `SetDegraded` of the abort
branch, and the error is the one of controller.go:183. -/
theorem applyLoop_ret (w : World) (data : String) (targets : List ConfigMap) :
    ∀ (tr : List Call) (errs : List Err), errs.length ≤ 5 →
      ((applyLoop w data targets tr errs).ret = none ∧
        (applyLoop w data targets tr errs).errs.length ≤ 5) ∨
      ((applyLoop w data targets tr errs).ret = some tooManyErr ∧
        (applyLoop w data targets tr errs).errs.length = 6 ∧
        ∃ before, (applyLoop w data targets tr errs).calls = before ++ [tooManyCall]) := by
  induction targets with
  | nil => intro tr errs h; left; simpa [applyLoop_nil] using h
  | cons cm rest ih =>
    intro tr errs h
    cases ha : (attempt w data cm tr).2 with
    | none =>
      rw [applyLoop_cons_ok w data cm _ tr errs ha]
      exact ih _ _ h
    | some e =>
      by_cases hlen : (errs ++ [e]).length > 5
      · rw [applyLoop_cons_abort w data cm _ tr errs e ha hlen]
        right
        refine ⟨rfl, ?_, _, rfl⟩
        simp only [List.length_append, List.length_singleton] at hlen ⊢
        omega
      · rw [applyLoop_cons_continue w data cm _ tr errs e ha hlen]
        exact ih _ _ (by omega)

end configmapcainjector

/-! ## Lemmas: the retried update read off the answers of the store -/

namespace configmapcainjector

theorem applyAnswer_zero (w : World) (data : String) (cm : ConfigMap) (tr : List Call) :
    applyAnswer w data cm tr 0 = w.applyObject tr (configMapToUpdate cm data) "configmap_ca" := by
  simp [applyAnswer]

theorem applyAnswer_succ (w : World) (data : String) (cm : ConfigMap) (tr : List Call) (i : Nat) :
    applyAnswer w data cm (tr ++ [applyCall data cm]) i = applyAnswer w data cm tr (i + 1) := by
  simp [applyAnswer, List.replicate_succ]

/-- For a stale target the wrapped closure returns an error exactly when the
store answers conflicts up to an Apply call that it answers with a
non-conflict error, or with a conflict at the last step. -/
theorem retry_fails_iff (w : World) (data : String) (cm : ConfigMap) (h : ¬ upToDate data cm)
    (n : Nat) :
    ∀ (tr : List Call) (last : Option Err) (e : Err),
      (RetryOnConflict n (updateFn w data cm) tr last).2 = some e ↔
        (n = 0 ∧ last = some e) ∨
        ∃ k, k < n ∧
          (∀ i, i < k → ∃ c, applyAnswer w data cm tr i = some c ∧ IsConflict c = true) ∧
          applyAnswer w data cm tr k = some e ∧ (IsConflict e = false ∨ k + 1 = n) := by
  induction n with
  | zero =>
    intro tr last e
    simp [RetryOnConflict]
  | succ n ih =>
    intro tr last e
    rw [RetryOnConflict, updateFn_stale w data cm tr h, ← applyAnswer_zero]
    cases ha : applyAnswer w data cm tr 0 with
    | none =>
      simp only
      constructor
      · intro hh; cases hh
      · rintro (⟨h1, _⟩ | ⟨k, _, hconf, hk2, _⟩)
        · omega
        · cases k with
          | zero => rw [ha] at hk2; cases hk2
          | succ k =>
            obtain ⟨c, hc, _⟩ := hconf 0 (by omega)
            rw [ha] at hc; cases hc
    | some e0 =>
      by_cases hc : IsConflict e0 = true
      · simp only [hc, if_true]
        rw [ih]
        constructor
        · rintro (⟨hn, hl⟩ | ⟨k, hk, hconf, hk2, hend⟩)
          · right
            have he : e0 = e := by injection hl
            subst he
            exact ⟨0, by omega, fun i hi => by omega, ha, Or.inr (by omega)⟩
          · right
            refine ⟨k + 1, by omega, ?_, ?_, ?_⟩
            · intro i hi
              cases i with
              | zero => exact ⟨e0, ha, hc⟩
              | succ i =>
                have := hconf i (by omega)
                rwa [applyAnswer_succ] at this
            · rwa [applyAnswer_succ] at hk2
            · rcases hend with h1 | h1
              · exact Or.inl h1
              · exact Or.inr (by omega)
        · rintro (⟨h1, _⟩ | ⟨k, hk, hconf, hk2, hend⟩)
          · omega
          · cases k with
            | zero =>
              rw [ha] at hk2
              have he : e0 = e := by injection hk2
              subst he
              rcases hend with h1 | h1
              · rw [hc] at h1; cases h1
              · exact Or.inl ⟨by omega, rfl⟩
            | succ k =>
              right
              refine ⟨k, by omega, ?_, ?_, ?_⟩
              · intro i hi
                have := hconf (i + 1) (by omega)
                rwa [← applyAnswer_succ] at this
              · rwa [← applyAnswer_succ] at hk2
              · rcases hend with h1 | h1
                · exact Or.inl h1
                · exact Or.inr (by omega)
      · simp only [hc]
        have hcf : IsConflict e0 = false := by simpa using hc
        constructor
        · intro hh
          have he : e0 = e := by simpa using hh
          subst he
          exact Or.inr ⟨0, by omega, fun i hi => by omega, ha, Or.inl hcf⟩
        · rintro (⟨h1, _⟩ | ⟨k, _, hconf, hk2, _⟩)
          · omega
          · cases k with
            | zero =>
              rw [ha] at hk2
              have he : e0 = e := by injection hk2
              subst he
              rfl
            | succ k =>
              obtain ⟨c, hc2, hc3⟩ := hconf 0 (by omega)
              rw [ha] at hc2
              have he : e0 = c := by injection hc2
              subst he
              rw [hcf] at hc3; cases hc3

/-- For a stale target whose Apply calls are answered with `k` conflicts and
then a non-conflict error, the wrapped closure makes `k + 1` Apply calls and
returns that error. -/
theorem retry_conflicts_then_error (w : World) (data : String) (cm : ConfigMap)
    (h : ¬ upToDate data cm) (k : Nat) :
    ∀ (n : Nat) (tr : List Call) (last : Option Err) (e : Err), k < n →
      (∀ i, i < k → ∃ c, applyAnswer w data cm tr i = some c ∧ IsConflict c = true) →
      applyAnswer w data cm tr k = some e → IsConflict e = false →
      RetryOnConflict n (updateFn w data cm) tr last =
        (tr ++ List.replicate (k + 1) (applyCall data cm), some e) := by
  induction k with
  | zero =>
    intro n tr last e hk _ ha hnc
    cases n with
    | zero => omega
    | succ n =>
      rw [applyAnswer_zero] at ha
      rw [retry_no_conflict w data cm n tr last e h ha hnc]
      rfl
  | succ k ih =>
    intro n tr last e hk hconf ha hnc
    cases n with
    | zero => omega
    | succ n =>
      obtain ⟨c, hc, hcc⟩ := hconf 0 (by omega)
      rw [applyAnswer_zero] at hc
      rw [RetryOnConflict, updateFn_stale w data cm tr h, hc]
      simp only [hcc, if_true]
      rw [ih n (tr ++ [applyCall data cm]) (some c) e (by omega) ?_ ?_ hnc]
      · simp [List.replicate_succ]
      · intro i hi
        have := hconf (i + 1) (by omega)
        rwa [← applyAnswer_succ] at this
      · rwa [← applyAnswer_succ] at ha

/-- The update of a target returns an error exactly when the store answers it
with a failure. -/
theorem attempt_fails_iff_applyFails (w : World) (data : String) (cm : ConfigMap)
    (tr : List Call) :
    (∃ e, (attempt w data cm tr).2 = some e) ↔ applyFails w data cm tr := by
  unfold attempt applyFails
  by_cases h : upToDate data cm
  · have h4 : DefaultBackoffSteps = 3 + 1 := rfl
    rw [h4, retry_upToDate w data cm 3 tr none h]
    constructor
    · rintro ⟨e, he⟩; cases he
    · rintro ⟨hs, _⟩; exact absurd h hs
  · constructor
    · rintro ⟨e, he⟩
      rcases (retry_fails_iff w data cm h DefaultBackoffSteps tr none e).mp he with
        ⟨h0, _⟩ | ⟨k, hk, hconf, hk2, hend⟩
      · cases h0
      · exact ⟨h, k, e, hk, hconf, hk2, hend⟩
    · rintro ⟨_, k, e, hk, hconf, hk2, hend⟩
      exact ⟨e, (retry_fails_iff w data cm h DefaultBackoffSteps tr none e).mpr
        (Or.inr ⟨k, hk, hconf, hk2, hend⟩)⟩

end configmapcainjector

/-! ## Theorems: `Reconcile` -/

namespace configmapcainjector

/-- A pass that reaches the loop is the loop and its report. -/
theorem Reconcile_of_reaches (w : World) (request : Request) (data : String)
    (targets : List ConfigMap) (tr : List Call) (h : ReachesLoop w request data targets tr) :
    Reconcile w request = applyAndReport w data targets tr := by
  obtain ⟨bundle, hb, hv, hcase⟩ := h
  unfold Reconcile
  simp only [hb, hv]
  rcases hcase with ⟨hc, hl, rfl⟩ | ⟨hc, ⟨cm, hg, rfl⟩, rfl⟩
  · unfold Request.isCanonical at hc
    simp only [hl, if_pos hc]
    rfl
  · unfold Request.isCanonical at hc
    simp only [hg, if_neg hc]
    rfl

/-- The calls made before the loop are reads only. -/
theorem ReachesLoop.reads (w : World) (request : Request) (data : String)
    (targets : List ConfigMap) (tr : List Call) (h : ReachesLoop w request data targets tr) :
    ∀ c ∈ tr, c = Call.CoreGet names.TRUSTED_CA_BUNDLE_CONFIGMAP_NS names.TRUSTED_CA_BUNDLE_CONFIGMAP ∨
      (request.isCanonical ∧ c = Call.List names.TRUSTED_CA_BUNDLE_CONFIGMAP_LABEL "true") ∨
      (¬ request.isCanonical ∧ c = Call.Get request.Namespace request.Name) := by
  obtain ⟨bundle, _, _, hcase⟩ := h
  rcases hcase with ⟨hc, _, rfl⟩ | ⟨hc, _, rfl⟩
  · intro c hmem
    simp only [List.mem_cons, List.mem_singleton, List.not_mem_nil, or_false] at hmem
    rcases hmem with rfl | rfl
    · exact Or.inl rfl
    · exact Or.inr (Or.inl ⟨hc, rfl⟩)
  · intro c hmem
    simp only [List.mem_cons, List.mem_singleton, List.not_mem_nil, or_false] at hmem
    rcases hmem with rfl | rfl
    · exact Or.inl rfl
    · exact Or.inr (Or.inr ⟨hc, rfl⟩)

/-- The report after a loop that returned. -/
theorem applyAndReport_abort (w : World) (data : String) (targets : List ConfigMap)
    (tr : List Call) (e : Err) (h : (applyLoop w data targets tr []).ret = some e) :
    applyAndReport w data targets tr = ⟨(applyLoop w data targets tr []).calls, {}, some e⟩ := by
  unfold applyAndReport
  simp only [h]

/-- The report after a loop that ran to its end with failures. -/
theorem applyAndReport_failed (w : World) (data : String) (targets : List ConfigMap)
    (tr : List Call) (h : (applyLoop w data targets tr []).ret = none)
    (he : (applyLoop w data targets tr []).errs ≠ []) :
    applyAndReport w data targets tr =
      ⟨(applyLoop w data targets tr []).calls ++ [someFailedCall], {}, some someFailedErr⟩ := by
  unfold applyAndReport
  simp only [h]
  rw [if_pos (List.length_pos.mpr he)]
  rfl

/-- The report after a loop without failure. -/
theorem applyAndReport_clean (w : World) (data : String) (targets : List ConfigMap)
    (tr : List Call) (he : (applyLoop w data targets tr []).errs = []) :
    applyAndReport w data targets tr =
      ⟨(applyLoop w data targets tr []).calls ++ [Call.SetNotDegraded InjectorConfig], {}, none⟩ := by
  have hret : (applyLoop w data targets tr []).ret = none := by
    rcases applyLoop_ret w data targets tr [] (by simp) with ⟨h, _⟩ | ⟨_, h6, _⟩
    · exact h
    · rw [he] at h6; simp at h6
  unfold applyAndReport
  simp only [hret, he]
  rfl

/-- The slice `errs` is non-empty at the end of the loop exactly when the
store answered the update of some reached target with a failure. -/
theorem errs_ne_nil_iff_updateFails (w : World) (data : String) (targets : List ConfigMap)
    (tr : List Call) :
    (applyLoop w data targets tr []).errs ≠ [] ↔ updateFails w data targets tr := by
  constructor
  · induction targets using List.reverseRecOn with
    | nil => intro h; simp [applyLoop_nil] at h
    | append_singleton init last ih =>
      intro h
      rw [applyLoop_append] at h
      by_cases hinit : (applyLoop w data init tr []).errs ≠ []
      · obtain ⟨pre, cm, suf, rfl, hr, ha⟩ := ih hinit
        exact ⟨pre, cm, suf ++ [last], by simp, hr, ha⟩
      · have hinit2 : (applyLoop w data init tr []).errs = [] := not_not.mp hinit
        have hret : (applyLoop w data init tr []).ret = none := by
          rcases applyLoop_ret w data init tr [] (by simp) with ⟨h1, _⟩ | ⟨_, h6, _⟩
          · exact h1
          · rw [hinit2] at h6; simp at h6
        rw [if_pos hret, hinit2] at h
        cases ha : (attempt w data last (applyLoop w data init tr []).calls).2 with
        | none =>
          rw [applyLoop_cons_ok w data last _ _ _ ha] at h
          simp [applyLoop_nil] at h
        | some e =>
          exact ⟨init, last, [], rfl, hret,
            (attempt_fails_iff_applyFails w data last _).mp ⟨e, ha⟩⟩
  · rintro ⟨pre, cm, suf, rfl, hr, hfails⟩
    obtain ⟨e, ha⟩ := (attempt_fails_iff_applyFails w data cm _).mpr hfails
    rw [applyLoop_append, if_pos hr]
    by_cases hlen : ((applyLoop w data pre tr []).errs ++ [e]).length > 5
    · rw [applyLoop_cons_abort w data cm _ _ _ e ha hlen]
      simp
    · rw [applyLoop_cons_continue w data cm _ _ _ e ha hlen]
      obtain ⟨more, hm⟩ := applyLoop_errs w data suf
        (attempt w data cm (applyLoop w data pre tr []).calls).1
        ((applyLoop w data pre tr []).errs ++ [e])
      rw [hm]
      simp

end configmapcainjector

namespace configmapcainjector

/-- C4. If the canonical bundle is found but its content fails validation,
`Reconcile` reports degraded with reason `InvalidInjectorConfig` and a message
naming the configmap, returns the validation error, and does nothing else: the
two calls below are all its calls, so there is no List, no Get of a target, no
Apply and no healthy signal. -/
theorem invalid_bundle_degrades (w : World) (request : Request) (bundle : ConfigMap) (e : Err)
    (hb : w.coreGet names.TRUSTED_CA_BUNDLE_CONFIGMAP_NS names.TRUSTED_CA_BUNDLE_CONFIGMAP =
      .ok bundle)
    (hv : w.validate bundle = .error e) :
    Reconcile w request =
      ⟨[Call.CoreGet names.TRUSTED_CA_BUNDLE_CONFIGMAP_NS names.TRUSTED_CA_BUNDLE_CONFIGMAP,
        Call.SetDegraded InjectorConfig "InvalidInjectorConfig"
          ("Failed to validate trusted CA certificates in " ++ bundle.Name)],
        {}, some e⟩ ∧
    ∀ c ∈ (Reconcile w request).calls,
      (∀ label value, c ≠ Call.List label value) ∧ (∀ ns name, c ≠ Call.Get ns name) ∧
      (∀ obj manager, c ≠ Call.Apply obj manager) ∧ (∀ level, c ≠ Call.SetNotDegraded level) := by
  have heq : Reconcile w request =
      ⟨[Call.CoreGet names.TRUSTED_CA_BUNDLE_CONFIGMAP_NS names.TRUSTED_CA_BUNDLE_CONFIGMAP,
        Call.SetDegraded InjectorConfig "InvalidInjectorConfig"
          ("Failed to validate trusted CA certificates in " ++ bundle.Name)],
        {}, some e⟩ := by
    unfold Reconcile
    simp only [hb, hv]
    rfl
  refine ⟨heq, ?_⟩
  intro c hc
  rw [heq] at hc
  simp only [List.mem_cons, List.mem_singleton, List.not_mem_nil, or_false] at hc
  rcases hc with rfl | rfl <;> simp

/-- C4 at a concrete store: the bundle holds `not a certificate`. -/
theorem invalid_bundle_degrades_witness :
    Reconcile worldInvalid canonicalRequest =
      ⟨[Call.CoreGet "openshift-config-managed" "trusted-ca-bundle",
        Call.SetDegraded "InjectorConfig" "InvalidInjectorConfig"
          "Failed to validate trusted CA certificates in trusted-ca-bundle"],
        {}, some (Err.Errorf "failed parsing certificate")⟩ :=
  (invalid_bundle_degrades worldInvalid canonicalRequest
    ⟨names.TRUSTED_CA_BUNDLE_CONFIGMAP_NS, names.TRUSTED_CA_BUNDLE_CONFIGMAP, [],
      [(names.TRUSTED_CA_BUNDLE_CONFIGMAP_KEY, "not a certificate")]⟩
    (Err.Errorf "failed parsing certificate") rfl rfl).1

/-- C5 as stated fails: the request names a configmap other than the bundle
that does not exist, yet the pass reports degraded and returns an error,
because the bundle is validated before the named configmap is looked up. -/
theorem absent_target_still_degraded :
    ¬ otherRequest.isCanonical ∧
    worldInvalid.get otherRequest.Namespace otherRequest.Name = .error notFound ∧
    IsNotFound notFound = true ∧
    Call.SetDegraded "InjectorConfig" "InvalidInjectorConfig"
        "Failed to validate trusted CA certificates in trusted-ca-bundle" ∈
      (Reconcile worldInvalid otherRequest).calls ∧
    (Reconcile worldInvalid otherRequest).err = some (Err.Errorf "failed parsing certificate") := by
  refine ⟨by decide, rfl, rfl, ?_, ?_⟩
  · decide
  · decide

/-- C5, amended.  NotFound is benign: if the canonical bundle is absent, or
if the canonical bundle is found and valid and the request names a configmap
other than the bundle that is absent, `Reconcile` returns the empty result and
a nil error, and its only calls are the reads: no Apply, no `SetDegraded` and
no `SetNotDegraded`. -/
theorem not_found_is_benign (w : World) (request : Request) :
    (∀ e, w.coreGet names.TRUSTED_CA_BUNDLE_CONFIGMAP_NS names.TRUSTED_CA_BUNDLE_CONFIGMAP =
        .error e → IsNotFound e = true →
      Reconcile w request =
        ⟨[Call.CoreGet names.TRUSTED_CA_BUNDLE_CONFIGMAP_NS names.TRUSTED_CA_BUNDLE_CONFIGMAP],
          {}, none⟩) ∧
    (∀ bundle data e,
      w.coreGet names.TRUSTED_CA_BUNDLE_CONFIGMAP_NS names.TRUSTED_CA_BUNDLE_CONFIGMAP =
        .ok bundle →
      w.validate bundle = .ok data →
      ¬ request.isCanonical →
      w.get request.Namespace request.Name = .error e → IsNotFound e = true →
      Reconcile w request =
        ⟨[Call.CoreGet names.TRUSTED_CA_BUNDLE_CONFIGMAP_NS names.TRUSTED_CA_BUNDLE_CONFIGMAP,
          Call.Get request.Namespace request.Name],
          {}, none⟩) := by
  constructor
  · intro e he hnf
    unfold Reconcile
    simp only [he, hnf, if_true]
  · intro bundle data e hb hv hc hg hnf
    unfold Request.isCanonical at hc
    unfold Reconcile
    simp only [hb, hv, hg, hnf, if_neg hc, if_true]
    rfl

/-- C5, amended, at concrete stores: no bundle at all; and a valid bundle with
a request for the absent `ns/app-config`. -/
theorem not_found_is_benign_witness :
    Reconcile worldNoBundle canonicalRequest =
        ⟨[Call.CoreGet "openshift-config-managed" "trusted-ca-bundle"], {}, none⟩ ∧
    Reconcile (worldWith [] none) otherRequest =
        ⟨[Call.CoreGet "openshift-config-managed" "trusted-ca-bundle",
          Call.Get "ns" "app-config"], {}, none⟩ :=
  ⟨(not_found_is_benign worldNoBundle canonicalRequest).1 notFound rfl rfl,
    (not_found_is_benign (worldWith [] none) otherRequest).2 bundleX "X" notFound rfl
      rfl (by decide) rfl rfl⟩

end configmapcainjector

namespace configmapcainjector

theorem attempt_upToDate (w : World) (data : String) (cm : ConfigMap) (tr : List Call)
    (h : upToDate data cm) : attempt w data cm tr = (tr, none) :=
  retry_upToDate w data cm 3 tr none h

theorem attempt_stale_first (w : World) (data : String) (cm : ConfigMap) (tr : List Call)
    (h : ¬ upToDate data cm) :
    ∃ more, (attempt w data cm tr).1 = tr ++ applyCall data cm :: more :=
  retry_stale_first w data cm 3 tr none h

theorem attempt_no_conflict (w : World) (data : String) (cm : ConfigMap) (tr : List Call)
    (e : Err) (h : ¬ upToDate data cm)
    (ha : w.applyObject tr (configMapToUpdate cm data) "configmap_ca" = some e)
    (hc : IsConflict e = false) :
    attempt w data cm tr = (tr ++ [applyCall data cm], some e) :=
  retry_no_conflict w data cm 3 tr none e h ha hc

/-- The calls of one iteration stay in the calls of the loop. -/
theorem applyLoop_cons_calls (w : World) (data : String) (cm : ConfigMap) (rest : List ConfigMap)
    (tr : List Call) (errs : List Err) :
    ∃ extra, (applyLoop w data (cm :: rest) tr errs).calls = (attempt w data cm tr).1 ++ extra := by
  cases ha : (attempt w data cm tr).2 with
  | none =>
    rw [applyLoop_cons_ok w data cm _ tr errs ha]
    obtain ⟨extra, he, _⟩ := applyLoop_calls w data rest (attempt w data cm tr).1 errs
    exact ⟨extra, he⟩
  | some e =>
    by_cases hlen : (errs ++ [e]).length > 5
    · rw [applyLoop_cons_abort w data cm _ tr errs e ha hlen]
      exact ⟨[tooManyCall], rfl⟩
    · rw [applyLoop_cons_continue w data cm _ tr errs e ha hlen]
      obtain ⟨extra, he, _⟩ := applyLoop_calls w data rest (attempt w data cm tr).1 (errs ++ [e])
      exact ⟨extra, he⟩

/-- The calls of the loop stay in the calls of the pass. -/
theorem applyAndReport_calls (w : World) (data : String) (targets : List ConfigMap)
    (tr : List Call) :
    ∃ final, (applyAndReport w data targets tr).calls =
        (applyLoop w data targets tr []).calls ++ final ∧
      ∀ c ∈ final, c = someFailedCall ∨ c = Call.SetNotDegraded InjectorConfig := by
  cases hr : (applyLoop w data targets tr []).ret with
  | some e =>
    rw [applyAndReport_abort w data targets tr e hr]
    exact ⟨[], by simp, by simp⟩
  | none =>
    by_cases he : (applyLoop w data targets tr []).errs = []
    · rw [applyAndReport_clean w data targets tr he]
      exact ⟨[Call.SetNotDegraded InjectorConfig], rfl, by simp⟩
    · rw [applyAndReport_failed w data targets tr hr he]
      exact ⟨[someFailedCall], rfl, by simp⟩

/-- Every Apply call of a pass that reaches the loop is the one Apply call of
a stale target of its list. -/
theorem pass_apply_calls (w : World) (request : Request) (data : String)
    (targets : List ConfigMap) (tr : List Call) (h : ReachesLoop w request data targets tr)
    (obj : ConfigMap) (manager : String)
    (hmem : Call.Apply obj manager ∈ (Reconcile w request).calls) :
    ∃ t ∈ targets, ¬ upToDate data t ∧ Call.Apply obj manager = applyCall data t := by
  rw [Reconcile_of_reaches w request data targets tr h] at hmem
  obtain ⟨final, hf, hfinal⟩ := applyAndReport_calls w data targets tr
  obtain ⟨extra, he, hextra⟩ := applyLoop_calls w data targets tr []
  rw [hf, he] at hmem
  rcases List.mem_append.mp hmem with h1 | h2
  · rcases List.mem_append.mp h1 with h3 | h4
    · rcases ReachesLoop.reads w request data targets tr h _ h3 with h5 | ⟨_, h5⟩ | ⟨_, h5⟩ <;>
        cases h5
    · rcases hextra _ h4 with h5 | h5
      · exact h5
      · simp [tooManyCall] at h5
  · rcases hfinal _ h2 with h5 | h5
    · simp [someFailedCall] at h5
    · cases h5

/-- A stale target that the loop reaches gets its Apply call. -/
theorem pass_applies_stale (w : World) (request : Request) (data : String)
    (pre suf : List ConfigMap) (t : ConfigMap) (tr : List Call)
    (h : ReachesLoop w request data (pre ++ t :: suf) tr)
    (hr : (applyLoop w data pre tr []).ret = none) (hs : ¬ upToDate data t) :
    applyCall data t ∈ (Reconcile w request).calls := by
  rw [Reconcile_of_reaches w request data _ tr h]
  obtain ⟨final, hf, _⟩ := applyAndReport_calls w data (pre ++ t :: suf) tr
  rw [hf, applyLoop_append, if_pos hr]
  obtain ⟨extra, he⟩ := applyLoop_cons_calls w data t suf (applyLoop w data pre tr []).calls
    (applyLoop w data pre tr []).errs
  obtain ⟨more, hm⟩ := attempt_stale_first w data t (applyLoop w data pre tr []).calls hs
  rw [he, hm]
  simp

/-- A pass in which some target update fails is reported degraded, does not
emit the healthy signal and returns an error. -/
theorem degraded_of_updateFails (w : World) (request : Request) (data : String)
    (targets : List ConfigMap) (tr : List Call) (h : ReachesLoop w request data targets tr)
    (hf : updateFails w data targets tr) :
    (∃ reason message,
      Call.SetDegraded InjectorConfig reason message ∈ (Reconcile w request).calls) ∧
    (∀ level, Call.SetNotDegraded level ∉ (Reconcile w request).calls) ∧
    (Reconcile w request).err ≠ none := by
  rw [Reconcile_of_reaches w request data targets tr h]
  have he := (errs_ne_nil_iff_updateFails w data targets tr).mpr hf
  obtain ⟨extra, hcalls, hextra⟩ := applyLoop_calls w data targets tr []
  have hno : ∀ level, Call.SetNotDegraded level ∉ (applyLoop w data targets tr []).calls := by
    intro level hmem
    rw [hcalls] at hmem
    rcases List.mem_append.mp hmem with h1 | h2
    · rcases ReachesLoop.reads w request data targets tr h _ h1 with h3 | ⟨_, h3⟩ | ⟨_, h3⟩ <;>
        cases h3
    · rcases hextra _ h2 with ⟨t, _, _, h3⟩ | h3
      · simp [applyCall] at h3
      · simp [tooManyCall] at h3
  rcases applyLoop_ret w data targets tr [] (by simp) with ⟨hr, _⟩ | ⟨hr, _, before, hb⟩
  · rw [applyAndReport_failed w data targets tr hr he]
    refine ⟨⟨"ConfigmapUpdateFailure",
      "some configmaps didn\x27t fully update with CA cert. data", ?_⟩, ?_, by simp⟩
    · show someFailedCall ∈ _
      simp
    · intro level hmem
      rcases List.mem_append.mp hmem with h1 | h2
      · exact hno level h1
      · simp [someFailedCall] at h2
  · rw [applyAndReport_abort w data targets tr _ hr]
    refine ⟨⟨"ConfigMapUpdateFailure",
      "Too many errors seen when updating trusted CA configmaps", ?_⟩, hno, by simp⟩
    show tooManyCall ∈ _
    rw [hb]
    simp

end configmapcainjector

namespace configmapcainjector

/-- C3. No failure is dropped silently.  A target update fails when the loop
reaches the target, the target does not hold the bundle bytes, and the store
answers its Apply calls with conflicts up to one that it answers with a
non-conflict error, or with a conflict at the last attempt of the backoff
(`updateFails`, stated on the answers `w.applyObject` gives).  In a pass that
reaches the apply loop, the healthy signal (`SetNotDegraded` for the injector
component) is emitted and a nil error returned if and only if no target update
failed; and if some target update failed, `SetDegraded` is emitted for the
injector component, `SetNotDegraded` is not emitted at all, and the returned
error is not nil. -/
theorem healthy_iff_no_update_fails (w : World) (request : Request) (data : String)
    (targets : List ConfigMap) (tr : List Call) (h : ReachesLoop w request data targets tr) :
    ((Call.SetNotDegraded InjectorConfig ∈ (Reconcile w request).calls ∧
        (Reconcile w request).err = none) ↔ ¬ updateFails w data targets tr) ∧
    (updateFails w data targets tr →
      (∃ reason message,
        Call.SetDegraded InjectorConfig reason message ∈ (Reconcile w request).calls) ∧
      (∀ level, Call.SetNotDegraded level ∉ (Reconcile w request).calls) ∧
      (Reconcile w request).err ≠ none) := by
  refine ⟨⟨?_, ?_⟩, degraded_of_updateFails w request data targets tr h⟩
  · rintro ⟨hmem, _⟩ hf
    exact (degraded_of_updateFails w request data targets tr h hf).2.1 _ hmem
  · intro hnf
    have he : (applyLoop w data targets tr []).errs = [] := by
      by_contra hne
      exact hnf ((errs_ne_nil_iff_updateFails w data targets tr).mp hne)
    rw [Reconcile_of_reaches w request data targets tr h,
      applyAndReport_clean w data targets tr he]
    simp

end configmapcainjector

namespace configmapcainjector

/-- In the stores `worldWith targets answer` a pass for the canonical bundle
reaches the loop with bytes `X` and the targets `targets`. -/
theorem reaches_worldWith (targets : List ConfigMap) (answer : Option Err) :
    ReachesLoop (worldWith targets answer) canonicalRequest "X" targets
      [Call.CoreGet names.TRUSTED_CA_BUNDLE_CONFIGMAP_NS names.TRUSTED_CA_BUNDLE_CONFIGMAP,
        Call.List names.TRUSTED_CA_BUNDLE_CONFIGMAP_LABEL "true"] :=
  ⟨bundleX, rfl, rfl, Or.inl ⟨by decide, rfl, rfl⟩⟩

/-- In the stores `worldSingle answer` and `worldConflictThen answer` a pass
for `ns/app-config` reaches the loop with bytes `X` and that one target. -/
theorem reaches_single (w : World)
    (hb : w.coreGet names.TRUSTED_CA_BUNDLE_CONFIGMAP_NS names.TRUSTED_CA_BUNDLE_CONFIGMAP =
      .ok bundleX)
    (hv : w.validate bundleX = .ok "X")
    (hg : w.get otherRequest.Namespace otherRequest.Name = .ok (labeled "app-config" [])) :
    ReachesLoop w otherRequest "X" [labeled "app-config" []]
      [Call.CoreGet names.TRUSTED_CA_BUNDLE_CONFIGMAP_NS names.TRUSTED_CA_BUNDLE_CONFIGMAP,
        Call.Get "ns" "app-config"] :=
  ⟨bundleX, hb, hv, Or.inr ⟨by decide, ⟨labeled "app-config" [], hg, rfl⟩, rfl⟩⟩

/-- C3 at concrete stores.  Failure side: the one stale target's Apply is
answered with a store error, so a target update fails, and the pass emits
`SetDegraded`, never `SetNotDegraded`, and returns an error.  Healthy side:
the Apply is answered with a conflict and then succeeds, the pass ends with
`SetNotDegraded` and a nil error, and no target update failed. -/
theorem healthy_iff_no_update_fails_witness :
    (worldSingle (some storeError)).applyObject
        [Call.CoreGet "openshift-config-managed" "trusted-ca-bundle", Call.Get "ns" "app-config"]
        ⟨"ns", "app-config", [], [("ca-bundle.crt", "X")]⟩ "configmap_ca" = some storeError ∧
    updateFails (worldSingle (some storeError)) "X" [labeled "app-config" []]
        [Call.CoreGet names.TRUSTED_CA_BUNDLE_CONFIGMAP_NS names.TRUSTED_CA_BUNDLE_CONFIGMAP,
          Call.Get "ns" "app-config"] ∧
    ((∃ reason message, Call.SetDegraded InjectorConfig reason message ∈
        (Reconcile (worldSingle (some storeError)) otherRequest).calls) ∧
      (∀ level, Call.SetNotDegraded level ∉
        (Reconcile (worldSingle (some storeError)) otherRequest).calls) ∧
      (Reconcile (worldSingle (some storeError)) otherRequest).err ≠ none) ∧
    Reconcile (worldConflictThen none) otherRequest =
        ⟨[Call.CoreGet "openshift-config-managed" "trusted-ca-bundle",
          Call.Get "ns" "app-config",
          Call.Apply ⟨"ns", "app-config", [], [("ca-bundle.crt", "X")]⟩ "configmap_ca",
          Call.Apply ⟨"ns", "app-config", [], [("ca-bundle.crt", "X")]⟩ "configmap_ca",
          Call.SetNotDegraded "InjectorConfig"], {}, none⟩ ∧
    ¬ updateFails (worldConflictThen none) "X" [labeled "app-config" []]
        [Call.CoreGet names.TRUSTED_CA_BUNDLE_CONFIGMAP_NS names.TRUSTED_CA_BUNDLE_CONFIGMAP,
          Call.Get "ns" "app-config"] :=
  have hfails : updateFails (worldSingle (some storeError)) "X" [labeled "app-config" []]
      [Call.CoreGet names.TRUSTED_CA_BUNDLE_CONFIGMAP_NS names.TRUSTED_CA_BUNDLE_CONFIGMAP,
        Call.Get "ns" "app-config"] :=
    ⟨[], labeled "app-config" [], [], rfl, rfl, by decide, 0, storeError, by decide,
      fun i hi => absurd hi (Nat.not_lt_zero i), rfl, Or.inl rfl⟩
  ⟨rfl, hfails,
    (healthy_iff_no_update_fails (worldSingle (some storeError)) otherRequest "X" _ _
      (reaches_single _ rfl rfl rfl)).2 hfails,
    by decide,
    (healthy_iff_no_update_fails (worldConflictThen none) otherRequest "X" _ _
      (reaches_single _ rfl rfl rfl)).1.mp (by decide)⟩

/-- C2. In a pass that reaches the apply loop: every Apply call is the call
for a target of the list that does not hold the bundle bytes under
`ca-bundle.crt`; and for every target `t` the loop reaches (the loop has not
returned before it), if `t` holds the bundle bytes under the key its update
makes no call at all and returns nil, and if the key is missing or holds other
bytes its update begins with an Apply call for `t`, which is among the calls
of the pass. -/
theorem apply_iff_stale (w : World) (request : Request) (data : String)
    (targets : List ConfigMap) (tr : List Call) (h : ReachesLoop w request data targets tr) :
    (∀ obj manager, Call.Apply obj manager ∈ (Reconcile w request).calls →
      ∃ t ∈ targets, t.Data.get names.TRUSTED_CA_BUNDLE_CONFIGMAP_KEY ≠ some data ∧
        obj = configMapToUpdate t data) ∧
    (∀ pre t suf, targets = pre ++ t :: suf → (applyLoop w data pre tr []).ret = none →
      (t.Data.get names.TRUSTED_CA_BUNDLE_CONFIGMAP_KEY = some data →
        attempt w data t (applyLoop w data pre tr []).calls =
          ((applyLoop w data pre tr []).calls, none)) ∧
      (t.Data.get names.TRUSTED_CA_BUNDLE_CONFIGMAP_KEY ≠ some data →
        (∃ more, (attempt w data t (applyLoop w data pre tr []).calls).1 =
          (applyLoop w data pre tr []).calls ++
            Call.Apply (configMapToUpdate t data) "configmap_ca" :: more) ∧
        Call.Apply (configMapToUpdate t data) "configmap_ca" ∈ (Reconcile w request).calls)) := by
  refine ⟨?_, ?_⟩
  · intro obj manager hmem
    obtain ⟨t, ht, hs, heq⟩ := pass_apply_calls w request data targets tr h obj manager hmem
    refine ⟨t, ht, hs, ?_⟩
    simp only [applyCall, Call.Apply.injEq] at heq
    exact heq.1
  · intro pre t suf htargets hr
    subst htargets
    refine ⟨fun hu => attempt_upToDate w data t _ hu, fun hs => ⟨?_, ?_⟩⟩
    · exact attempt_stale_first w data t _ hs
    · exact pass_applies_stale w request data pre suf t tr h hr hs

/-- C2 at a concrete store: bundle bytes `X` and three labeled targets holding
`X`, `Y` and no key.  The pass makes exactly two Apply calls, for the holder
of `Y` and for the keyless target, and none for the holder of `X`. -/
theorem apply_iff_stale_witness :
    Reconcile worldXY canonicalRequest =
        ⟨[Call.CoreGet "openshift-config-managed" "trusted-ca-bundle",
          Call.List "config.openshift.io/inject-trusted-cabundle" "true",
          Call.Apply ⟨"ns", "holdsY", [], [("ca-bundle.crt", "X")]⟩ "configmap_ca",
          Call.Apply ⟨"ns", "keyless", [], [("ca-bundle.crt", "X")]⟩ "configmap_ca",
          Call.SetNotDegraded "InjectorConfig"], {}, none⟩ ∧
    (∀ obj manager, Call.Apply obj manager ∈ (Reconcile worldXY canonicalRequest).calls →
      ∃ t ∈ [labeled "holdsX" [(names.TRUSTED_CA_BUNDLE_CONFIGMAP_KEY, "X")],
          labeled "holdsY" [(names.TRUSTED_CA_BUNDLE_CONFIGMAP_KEY, "Y")],
          labeled "keyless" []],
        t.Data.get names.TRUSTED_CA_BUNDLE_CONFIGMAP_KEY ≠ some "X" ∧
        obj = configMapToUpdate t "X") :=
  ⟨by decide, (apply_iff_stale worldXY canonicalRequest "X" _ _ (reaches_worldWith _ _)).1⟩

end configmapcainjector

namespace configmapcainjector

end configmapcainjector

namespace configmapcainjector

/-- A pass either reaches the apply loop, or it makes nothing but its reads
and one `SetDegraded`. -/
theorem Reconcile_cases (w : World) (request : Request) :
    (∃ data targets tr, ReachesLoop w request data targets tr) ∨
    (∀ c ∈ (Reconcile w request).calls,
      c = Call.CoreGet names.TRUSTED_CA_BUNDLE_CONFIGMAP_NS names.TRUSTED_CA_BUNDLE_CONFIGMAP ∨
      (request.isCanonical ∧ c = Call.List names.TRUSTED_CA_BUNDLE_CONFIGMAP_LABEL "true") ∨
      (¬ request.isCanonical ∧ c = Call.Get request.Namespace request.Name) ∨
      ∃ reason message, c = Call.SetDegraded InjectorConfig reason message) := by
  cases hb : w.coreGet names.TRUSTED_CA_BUNDLE_CONFIGMAP_NS names.TRUSTED_CA_BUNDLE_CONFIGMAP with
  | error e =>
    right
    unfold Reconcile
    simp only [hb]
    split <;> simp
  | ok bundle =>
    cases hv : w.validate bundle with
    | error e =>
      right
      unfold Reconcile
      simp only [hb, hv]
      intro c hc
      simp only [List.mem_append, List.mem_singleton] at hc
      rcases hc with rfl | rfl
      · exact Or.inl rfl
      · exact Or.inr (Or.inr (Or.inr ⟨_, _, rfl⟩))
    | ok data =>
      by_cases hc : request.isCanonical
      · cases hl : w.list names.TRUSTED_CA_BUNDLE_CONFIGMAP_LABEL "true" with
        | error e =>
          right
          have hc2 := hc
          unfold Request.isCanonical at hc2
          unfold Reconcile
          simp only [hb, hv, hl, if_pos hc2]
          intro c hmem
          simp only [List.mem_append, List.mem_singleton] at hmem
          rcases hmem with (rfl | rfl) | rfl
          · exact Or.inl rfl
          · exact Or.inr (Or.inl ⟨hc, rfl⟩)
          · exact Or.inr (Or.inr (Or.inr ⟨_, _, rfl⟩))
        | ok items => exact Or.inl ⟨data, items, _, bundle, hb, hv, Or.inl ⟨hc, hl, rfl⟩⟩
      · cases hg : w.get request.Namespace request.Name with
        | error e =>
          right
          have hc2 := hc
          unfold Request.isCanonical at hc2
          unfold Reconcile
          simp only [hb, hv, hg, if_neg hc2]
          intro c hmem
          split at hmem
          · simp only [List.mem_append, List.mem_singleton] at hmem
            rcases hmem with rfl | rfl
            · exact Or.inl rfl
            · exact Or.inr (Or.inr (Or.inl ⟨hc, rfl⟩))
          · simp only [List.mem_append, List.mem_singleton] at hmem
            rcases hmem with (rfl | rfl) | rfl
            · exact Or.inl rfl
            · exact Or.inr (Or.inr (Or.inl ⟨hc, rfl⟩))
            · exact Or.inr (Or.inr (Or.inr ⟨_, _, rfl⟩))
        | ok cm =>
          exact Or.inl ⟨data, [cm], _, bundle, hb, hv, Or.inr ⟨hc, ⟨cm, hg, rfl⟩, rfl⟩⟩

/-- The reads of a pass: the calls other than Apply and the health signals. -/
theorem Reconcile_reads (w : World) (request : Request) :
    ∀ c ∈ (Reconcile w request).calls,
      c = Call.CoreGet names.TRUSTED_CA_BUNDLE_CONFIGMAP_NS names.TRUSTED_CA_BUNDLE_CONFIGMAP ∨
      (request.isCanonical ∧ c = Call.List names.TRUSTED_CA_BUNDLE_CONFIGMAP_LABEL "true") ∨
      (¬ request.isCanonical ∧ c = Call.Get request.Namespace request.Name) ∨
      (∃ reason message, c = Call.SetDegraded InjectorConfig reason message) ∨
      (∃ obj manager, c = Call.Apply obj manager) ∨ c = Call.SetNotDegraded InjectorConfig := by
  rcases Reconcile_cases w request with ⟨data, targets, tr, h⟩ | hno
  · intro c hc
    rw [Reconcile_of_reaches w request data targets tr h] at hc
    obtain ⟨final, hf, hfinal⟩ := applyAndReport_calls w data targets tr
    obtain ⟨extra, he, hextra⟩ := applyLoop_calls w data targets tr []
    rw [hf, he] at hc
    rcases List.mem_append.mp hc with h1 | h2
    · rcases List.mem_append.mp h1 with h3 | h4
      · rcases ReachesLoop.reads w request data targets tr h _ h3 with h5 | h5 | h5
        · exact Or.inl h5
        · exact Or.inr (Or.inl h5)
        · exact Or.inr (Or.inr (Or.inl h5))
      · rcases hextra _ h4 with ⟨t, _, _, h5⟩ | h5
        · exact Or.inr (Or.inr (Or.inr (Or.inr (Or.inl ⟨_, _, h5⟩))))
        · exact Or.inr (Or.inr (Or.inr (Or.inl ⟨_, _, h5⟩)))
    · rcases hfinal _ h2 with h5 | h5
      · exact Or.inr (Or.inr (Or.inr (Or.inl ⟨_, _, h5⟩)))
      · exact Or.inr (Or.inr (Or.inr (Or.inr (Or.inr h5))))
  · intro c hc
    rcases hno c hc with h1 | h1 | h1 | h1
    · exact Or.inl h1
    · exact Or.inr (Or.inl h1)
    · exact Or.inr (Or.inr (Or.inl h1))
    · exact Or.inr (Or.inr (Or.inr (Or.inl h1)))

/-- C7. Every Apply call of a pass of `Reconcile` submits, under the field
manager `configmap_ca`, a sparse object made of the namespace and name of a
resolved target, no labels, and a `Data` map whose one entry binds
`ca-bundle.crt` to the validated bundle bytes.  The resolved targets are the
configmaps that the List with label `true` returned when the request names
the canonical bundle, and the one configmap that the Get of the request's
name returned otherwise.  The pass lists only with that label selector and
only for a canonical request, and gets only the configmap the request names
and only for a request that is not canonical. -/
theorem apply_is_sparse_for_resolved_target (w : World) (request : Request) :
    (∀ obj manager, Call.Apply obj manager ∈ (Reconcile w request).calls →
      manager = "configmap_ca" ∧
      ∃ bundle data t,
        w.coreGet names.TRUSTED_CA_BUNDLE_CONFIGMAP_NS names.TRUSTED_CA_BUNDLE_CONFIGMAP =
          .ok bundle ∧
        w.validate bundle = .ok data ∧
        obj = ⟨t.Namespace, t.Name, [], [(names.TRUSTED_CA_BUNDLE_CONFIGMAP_KEY, data)]⟩ ∧
        (request.isCanonical →
          ∃ items, w.list names.TRUSTED_CA_BUNDLE_CONFIGMAP_LABEL "true" = .ok items ∧ t ∈ items) ∧
        (¬ request.isCanonical → w.get request.Namespace request.Name = .ok t)) ∧
    (∀ label value, Call.List label value ∈ (Reconcile w request).calls →
      request.isCanonical ∧ label = names.TRUSTED_CA_BUNDLE_CONFIGMAP_LABEL ∧ value = "true") ∧
    (∀ ns name, Call.Get ns name ∈ (Reconcile w request).calls →
      ¬ request.isCanonical ∧ ns = request.Namespace ∧ name = request.Name) := by
  refine ⟨?_, ?_, ?_⟩
  · intro obj manager hmem
    rcases Reconcile_cases w request with ⟨data, targets, tr, h⟩ | hno
    · obtain ⟨t, ht, _, heq⟩ := pass_apply_calls w request data targets tr h obj manager hmem
      simp only [applyCall, Call.Apply.injEq] at heq
      obtain ⟨bundle, hb, hv, hcase⟩ := h
      refine ⟨heq.2, bundle, data, t, hb, hv, heq.1, ?_, ?_⟩
      · intro hc
        rcases hcase with ⟨_, hl, _⟩ | ⟨hnc, _, _⟩
        · exact ⟨targets, hl, ht⟩
        · exact absurd hc hnc
      · intro hnc
        rcases hcase with ⟨hc, _, _⟩ | ⟨_, ⟨cm, hg, rfl⟩, _⟩
        · exact absurd hc hnc
        · rw [List.mem_singleton] at ht
          rw [ht]
          exact hg
    · rcases hno _ hmem with h1 | ⟨_, h1⟩ | ⟨_, h1⟩ | ⟨_, _, h1⟩ <;> cases h1
  · intro label value hmem
    rcases Reconcile_reads w request _ hmem with
      h1 | ⟨hc, h1⟩ | ⟨_, h1⟩ | ⟨_, _, h1⟩ | ⟨_, _, h1⟩ | h1
    · cases h1
    · simp only [Call.List.injEq] at h1
      exact ⟨hc, h1.1, h1.2⟩
    all_goals cases h1
  · intro ns name hmem
    rcases Reconcile_reads w request _ hmem with
      h1 | ⟨_, h1⟩ | ⟨hc, h1⟩ | ⟨_, _, h1⟩ | ⟨_, _, h1⟩ | h1
    · cases h1
    · cases h1
    · simp only [Call.Get.injEq] at h1
      exact ⟨hc, h1.1, h1.2⟩
    all_goals cases h1

/-- C7 at a concrete store: the Apply call for the holder of `Y`. -/
theorem apply_is_sparse_for_resolved_target_witness :
    Call.Apply ⟨"ns", "holdsY", [], [("ca-bundle.crt", "X")]⟩ "configmap_ca" ∈
        (Reconcile worldXY canonicalRequest).calls ∧
    ∃ bundle data t,
      worldXY.coreGet names.TRUSTED_CA_BUNDLE_CONFIGMAP_NS names.TRUSTED_CA_BUNDLE_CONFIGMAP =
        .ok bundle ∧
      worldXY.validate bundle = .ok data ∧
      (⟨"ns", "holdsY", [], [("ca-bundle.crt", "X")]⟩ : ConfigMap) =
        ⟨t.Namespace, t.Name, [], [(names.TRUSTED_CA_BUNDLE_CONFIGMAP_KEY, data)]⟩ ∧
      (canonicalRequest.isCanonical →
        ∃ items, worldXY.list names.TRUSTED_CA_BUNDLE_CONFIGMAP_LABEL "true" = .ok items ∧
          t ∈ items) ∧
      (¬ canonicalRequest.isCanonical →
        worldXY.get canonicalRequest.Namespace canonicalRequest.Name = .ok t) :=
  ⟨by decide,
    ((apply_is_sparse_for_resolved_target worldXY canonicalRequest).1
      ⟨"ns", "holdsY", [], [("ca-bundle.crt", "X")]⟩ "configmap_ca" (by decide)).2⟩

end configmapcainjector

namespace configmapcainjector

/-- C8 as stated fails: the request names the existing configmap
`ns/app-config`, which carries no label in the store state the pass reads and
whose designated key is missing, and the pass submits an Apply for it. -/
theorem unlabeled_target_is_written :
    worldUnlabeled.get otherRequest.Namespace otherRequest.Name =
        .ok ⟨"ns", "app-config", [], [("unrelated", "value")]⟩ ∧
    Reconcile worldUnlabeled otherRequest =
        ⟨[Call.CoreGet "openshift-config-managed" "trusted-ca-bundle",
          Call.Get "ns" "app-config",
          Call.Apply ⟨"ns", "app-config", [], [("ca-bundle.crt", "X")]⟩ "configmap_ca",
          Call.SetNotDegraded "InjectorConfig"], {}, none⟩ := by
  refine ⟨rfl, ?_⟩
  decide

/-- C8, amended.  Every Apply call of a pass is for a configmap the pass
resolved, so when all resolved configmaps carry the label
`config.openshift.io/inject-trusted-cabundle = true` in the state read by the
pass (as the label query gives for a request naming the canonical bundle),
only labeled configmaps are written.  `Reconcile` itself does not look at the
labels of the single configmap a non-canonical request names: whenever that
configmap exists and does not hold the bundle bytes under the designated key,
an Apply is submitted for it, whatever its labels. -/
theorem apply_labeled_when_resolved_labeled (w : World) (request : Request) (data : String)
    (targets : List ConfigMap) (tr : List Call) (h : ReachesLoop w request data targets tr) :
    ((∀ t ∈ targets, t.Labels.get names.TRUSTED_CA_BUNDLE_CONFIGMAP_LABEL = some "true") →
      ∀ obj manager, Call.Apply obj manager ∈ (Reconcile w request).calls →
        ∃ t ∈ targets, t.Labels.get names.TRUSTED_CA_BUNDLE_CONFIGMAP_LABEL = some "true" ∧
          obj.Namespace = t.Namespace ∧ obj.Name = t.Name) ∧
    (¬ request.isCanonical →
      ∀ cm, w.get request.Namespace request.Name = .ok cm →
        cm.Data.get names.TRUSTED_CA_BUNDLE_CONFIGMAP_KEY ≠ some data →
        Call.Apply (configMapToUpdate cm data) "configmap_ca" ∈ (Reconcile w request).calls) := by
  refine ⟨?_, ?_⟩
  · intro hl obj manager hmem
    obtain ⟨t, ht, _, heq⟩ := pass_apply_calls w request data targets tr h obj manager hmem
    simp only [applyCall, Call.Apply.injEq] at heq
    refine ⟨t, ht, hl t ht, ?_, ?_⟩
    · rw [heq.1]; rfl
    · rw [heq.1]; rfl
  · intro hnc cm hg hs
    have h2 := h
    obtain ⟨bundle, _, _, hcase⟩ := h2
    rcases hcase with ⟨hc, _, _⟩ | ⟨_, ⟨cm2, hg2, htargets⟩, _⟩
    · exact absurd hc hnc
    · rw [hg] at hg2
      have hcm : cm = cm2 := by injection hg2
      subst hcm
      subst htargets
      exact pass_applies_stale w request data [] [] cm tr h rfl hs

/-- C8, amended, at concrete stores: both Apply calls of the pass over the
three labeled targets are for labeled targets; and the existing, unlabeled
`ns/app-config` named by a request gets its Apply call. -/
theorem apply_labeled_when_resolved_labeled_witness :
    ReachesLoop worldXY canonicalRequest "X"
        [labeled "holdsX" [(names.TRUSTED_CA_BUNDLE_CONFIGMAP_KEY, "X")],
          labeled "holdsY" [(names.TRUSTED_CA_BUNDLE_CONFIGMAP_KEY, "Y")],
          labeled "keyless" []]
        [Call.CoreGet names.TRUSTED_CA_BUNDLE_CONFIGMAP_NS names.TRUSTED_CA_BUNDLE_CONFIGMAP,
          Call.List names.TRUSTED_CA_BUNDLE_CONFIGMAP_LABEL "true"] ∧
    (∀ obj manager, Call.Apply obj manager ∈ (Reconcile worldXY canonicalRequest).calls →
      ∃ t ∈ [labeled "holdsX" [(names.TRUSTED_CA_BUNDLE_CONFIGMAP_KEY, "X")],
          labeled "holdsY" [(names.TRUSTED_CA_BUNDLE_CONFIGMAP_KEY, "Y")],
          labeled "keyless" []],
        t.Labels.get names.TRUSTED_CA_BUNDLE_CONFIGMAP_LABEL = some "true" ∧
        obj.Namespace = t.Namespace ∧ obj.Name = t.Name) ∧
    Call.Apply ⟨"ns", "app-config", [], [("ca-bundle.crt", "X")]⟩ "configmap_ca" ∈
      (Reconcile worldUnlabeled otherRequest).calls :=
  ⟨reaches_worldWith _ _,
    (apply_labeled_when_resolved_labeled worldXY canonicalRequest "X" _ _
      (reaches_worldWith _ _)).1 (by decide),
    (apply_labeled_when_resolved_labeled worldUnlabeled otherRequest "X"
      [⟨"ns", "app-config", [], [("unrelated", "value")]⟩]
      [Call.CoreGet names.TRUSTED_CA_BUNDLE_CONFIGMAP_NS names.TRUSTED_CA_BUNDLE_CONFIGMAP,
        Call.Get "ns" "app-config"]
      ⟨bundleX, rfl, rfl, Or.inr ⟨by decide, ⟨_, rfl, rfl⟩, rfl⟩⟩).2 (by decide)
      ⟨"ns", "app-config", [], [("unrelated", "value")]⟩ rfl (by decide)⟩

/-- C9 as stated fails: the one Apply of the pass returns the canceled error,
and that error is appended to `errs` (the failure count becomes 1) and the
pass emits `SetDegraded` and returns an error. -/
theorem canceled_apply_degrades :
    (worldSingle (some Err.Canceled)).applyObject
        [Call.CoreGet "openshift-config-managed" "trusted-ca-bundle", Call.Get "ns" "app-config"]
        ⟨"ns", "app-config", [], [("ca-bundle.crt", "X")]⟩ "configmap_ca" = some Err.Canceled ∧
    (applyLoop (worldSingle (some Err.Canceled)) "X" [labeled "app-config" []]
        [Call.CoreGet "openshift-config-managed" "trusted-ca-bundle", Call.Get "ns" "app-config"]
        []).errs = [Err.Canceled] ∧
    Reconcile (worldSingle (some Err.Canceled)) otherRequest =
        ⟨[Call.CoreGet "openshift-config-managed" "trusted-ca-bundle",
          Call.Get "ns" "app-config",
          Call.Apply ⟨"ns", "app-config", [], [("ca-bundle.crt", "X")]⟩ "configmap_ca",
          Call.SetDegraded "InjectorConfig" "ConfigmapUpdateFailure"
            "some configmaps didn\x27t fully update with CA cert. data"],
          {}, some (Err.Errorf "some configmaps didn\x27t fully update with CA cert. data")⟩ := by
  refine ⟨rfl, ?_, ?_⟩
  · decide
  · decide

/-- C9, amended.  A cancellation or deadline error returned by any Apply call
of a target (the first one, or one made after earlier Apply calls of the same
update were answered with conflicts) is handled like every other non-conflict
error: the update stops there and returns it, it is appended to `errs` (so it
counts toward the failure threshold), and the pass emits `SetDegraded` and
returns an error. -/
theorem canceled_apply_is_counted (w : World) (request : Request) (data : String)
    (pre suf : List ConfigMap) (cm : ConfigMap) (tr : List Call) (k : Nat) (e : Err)
    (h : ReachesLoop w request data (pre ++ cm :: suf) tr)
    (hr : (applyLoop w data pre tr []).ret = none)
    (hs : cm.Data.get names.TRUSTED_CA_BUNDLE_CONFIGMAP_KEY ≠ some data)
    (hk : k < DefaultBackoffSteps)
    (hconf : ∀ i, i < k → ∃ c,
      w.applyObject
          ((applyLoop w data pre tr []).calls ++
            List.replicate i (Call.Apply (configMapToUpdate cm data) "configmap_ca"))
          (configMapToUpdate cm data) "configmap_ca" = some c ∧
        IsConflict c = true)
    (he : e = Err.Canceled ∨ e = Err.DeadlineExceeded)
    (ha : w.applyObject
        ((applyLoop w data pre tr []).calls ++
          List.replicate k (Call.Apply (configMapToUpdate cm data) "configmap_ca"))
        (configMapToUpdate cm data) "configmap_ca" = some e) :
    attempt w data cm (applyLoop w data pre tr []).calls =
        ((applyLoop w data pre tr []).calls ++
          List.replicate (k + 1) (Call.Apply (configMapToUpdate cm data) "configmap_ca"),
          some e) ∧
    (applyLoop w data (pre ++ [cm]) tr []).errs = (applyLoop w data pre tr []).errs ++ [e] ∧
    (∃ reason message,
      Call.SetDegraded InjectorConfig reason message ∈ (Reconcile w request).calls) ∧
    (Reconcile w request).err ≠ none := by
  have hnc : IsConflict e = false := by
    rcases he with rfl | rfl <;> rfl
  have hatt : attempt w data cm (applyLoop w data pre tr []).calls =
      ((applyLoop w data pre tr []).calls ++ List.replicate (k + 1) (applyCall data cm),
        some e) :=
    retry_conflicts_then_error w data cm hs k DefaultBackoffSteps _ none e hk hconf ha hnc
  have ha2 : (attempt w data cm (applyLoop w data pre tr []).calls).2 = some e := by rw [hatt]
  refine ⟨hatt, ?_, ?_⟩
  · rw [applyLoop_append, if_pos hr]
    by_cases hlen : ((applyLoop w data pre tr []).errs ++ [e]).length > 5
    · rw [applyLoop_cons_abort w data cm [] _ _ e ha2 hlen]
    · rw [applyLoop_cons_continue w data cm [] _ _ e ha2 hlen, applyLoop_nil]
  · have hd := degraded_of_updateFails w request data _ tr h
      ⟨pre, cm, suf, rfl, hr, hs, k, e, hk, hconf, ha, Or.inl hnc⟩
    exact ⟨hd.1, hd.2.2⟩

/-- C9, amended, at a concrete store: the single target's first Apply is
answered with a conflict and its second with the canceled error.  Two Apply
calls are made, the canceled error is the one entry of `errs`, and the pass
emits `SetDegraded` and returns an error. -/
theorem canceled_apply_is_counted_witness :
    ReachesLoop (worldConflictThen (some Err.Canceled)) otherRequest "X"
        [labeled "app-config" []]
        [Call.CoreGet names.TRUSTED_CA_BUNDLE_CONFIGMAP_NS names.TRUSTED_CA_BUNDLE_CONFIGMAP,
          Call.Get "ns" "app-config"] ∧
    Reconcile (worldConflictThen (some Err.Canceled)) otherRequest =
        ⟨[Call.CoreGet "openshift-config-managed" "trusted-ca-bundle",
          Call.Get "ns" "app-config",
          Call.Apply ⟨"ns", "app-config", [], [("ca-bundle.crt", "X")]⟩ "configmap_ca",
          Call.Apply ⟨"ns", "app-config", [], [("ca-bundle.crt", "X")]⟩ "configmap_ca",
          Call.SetDegraded "InjectorConfig" "ConfigmapUpdateFailure"
            "some configmaps didn\x27t fully update with CA cert. data"],
          {}, some (Err.Errorf "some configmaps didn\x27t fully update with CA cert. data")⟩ ∧
    (applyLoop (worldConflictThen (some Err.Canceled)) "X" ([] ++ [labeled "app-config" []])
        [Call.CoreGet names.TRUSTED_CA_BUNDLE_CONFIGMAP_NS names.TRUSTED_CA_BUNDLE_CONFIGMAP,
          Call.Get "ns" "app-config"] []).errs = [] ++ [Err.Canceled] ∧
    (∃ reason message, Call.SetDegraded InjectorConfig reason message ∈
      (Reconcile (worldConflictThen (some Err.Canceled)) otherRequest).calls) ∧
    (Reconcile (worldConflictThen (some Err.Canceled)) otherRequest).err ≠ none :=
  ⟨reaches_single _ rfl rfl rfl, by decide,
    (canceled_apply_is_counted (worldConflictThen (some Err.Canceled)) otherRequest "X" [] []
      (labeled "app-config" [])
      [Call.CoreGet names.TRUSTED_CA_BUNDLE_CONFIGMAP_NS names.TRUSTED_CA_BUNDLE_CONFIGMAP,
        Call.Get "ns" "app-config"]
      1 Err.Canceled (reaches_single _ rfl rfl rfl) rfl (by decide) (by decide)
      (fun i hi => by
        have hi0 : i = 0 := by omega
        subst hi0
        exact ⟨conflictErr, rfl, rfl⟩)
      (Or.inl rfl) rfl).2⟩

end configmapcainjector

namespace network

end network
